import Mathlib

/-!
# subvertpy `_ra_iter_log.c`: the log iterator

A shallow embedding of `subvertpy/_ra_iter_log.c`: the hand-off queue between the
worker thread (`py_iter_log`, which runs the blocking native log call) and the
consumer (`log_iter_next`), and the request entry point `ra_iter_log`.

Conventions of the embedding.

* A C pointer that the code tests against `NULL` is an `Option`; `none` is `NULL`.
* Queue nodes (`struct log_entry`) live in a `Memory`, a map from addresses to
  nodes; `calloc` contributes the address it returned, `free` removes the node.
* Python objects are opaque identities, except the exception object built from
  a native error.
* `int queue_size` is a 32-bit two's-complement integer: `++` and `--` wrap.
* Every piece of code between taking and releasing the GIL is one atomic step;
  an `Event` is such a step and a `List Event` is an interleaving of the two
  threads.
-/

namespace Subvertpy

/-! ## Data model -/

/-- A native `svn_error_t *` that is not `NULL`, by identity. -/
abbrev svn_error_t := Nat

/-- A `PyObject *` that is not `NULL`: an object known only by identity, or the
exception object made from a native error. -/
inductive PyObject
  | object (id : Nat)
  | SubversionException (error : svn_error_t)
  deriving DecidableEq, Repr

/-- The queue node `struct log_entry`. -/
structure log_entry where
  tuple : PyObject
  next : Option Nat
  deriving DecidableEq, Repr

/-- The allocated `struct log_entry` nodes, by address. -/
abbrev Memory := Nat → Option log_entry

/-- Writing a node at an address. -/
def Memory.store (mem : Memory) (p : Nat) (node : log_entry) : Memory :=
  fun a => if a = p then some node else mem a

/-- The effect of `free(p)`. -/
def Memory.free (mem : Memory) (p : Nat) : Memory :=
  fun a => if a = p then none else mem a

/-- The fields of `RemoteAccessObject` this file uses: the native session
`ra->ra` and the flag `ra->busy`. -/
structure RemoteAccessObject where
  ra : Nat
  busy : Bool
  deriving DecidableEq, Repr

/-- The struct `LogIteratorObject`. `end_` is the field `end`; `ra` is the
address of the connection object. -/
structure LogIteratorObject where
  start : Int
  end_ : Int
  discover_changed_paths : Bool
  strict_node_history : Bool
  include_merged_revisions : Bool
  limit : Int
  pool : Nat
  apr_paths : Option (List String)
  apr_revprops : Option (List String)
  ra : Nat
  done : Bool
  exception : Option PyObject
  queue_size : Int
  head : Option Nat
  tail : Option Nat
  deriving DecidableEq, Repr

/-- The value of a C `int` after an arithmetic result `x`: two's complement on
32 bits. -/
def int_wrap (x : Int) : Int := (x + 2147483648) % 4294967296 - 2147483648

/-! ## The queue: `log_iter_next` and `py_iter_append` -/

/-- How a call of `log_iter_next` ends. -/
inductive NextResult
  /-- The call returns `ret`, the tuple of the first node. -/
  | returned (ret : PyObject)
  /-- The call sets `StopIteration` and returns `NULL`. -/
  | StopIteration
  /-- The call does `PyErr_SetObject(exccls, iter->exception)` and returns `NULL`. -/
  | raised (exccls : PyObject) (value : PyObject)
  /-- The lookup of the exception class failed (`exccls == NULL`): the call
  returns `NULL` with the error of the lookup. -/
  | no_exccls
  /-- The code dereferences `iter->head`, which points to no allocated node. -/
  | bad_pointer
  deriving DecidableEq, Repr

/-- The function `log_iter_next`. `exccls` is what
`PyErr_GetSubversionExceptionTypeObject()` returns. Each pass through the
waiting branch of the `while` loop costs one unit of fuel; the result is `none`
when the fuel runs out with the call still waiting. -/
def log_iter_next (exccls : Option PyObject) :
    Nat → Memory → LogIteratorObject → Option (Memory × LogIteratorObject × NextResult)
  | 0, _, _ => none
  | fuel + 1, mem, iter =>
    match iter.head with
    | none =>
      if iter.done then
        match iter.exception with
        | some exception =>
          match exccls with
          | none => some (mem, iter, NextResult.no_exccls)
          | some cls => some (mem, iter, NextResult.raised cls exception)
        | none => some (mem, iter, NextResult.StopIteration)
      else
        log_iter_next exccls fuel mem iter
    | some first =>
      match mem first with
      | none => some (mem, iter, NextResult.bad_pointer)
      | some node =>
        let ret := node.tuple
        let iter1 := { iter with head := node.next }
        let iter2 := if some first = iter1.tail then { iter1 with tail := none } else iter1
        let mem1 := mem.free first
        let iter3 := { iter2 with queue_size := int_wrap (iter2.queue_size - 1) }
        some (mem1, iter3, NextResult.returned ret)

/-- How a call of `py_iter_append` ends. -/
inductive AppendResult
  /-- The call ends in `Py_RETURN_NONE`. -/
  | none_returned
  /-- The allocation failed: `PyErr_NoMemory(); return NULL`. -/
  | no_memory
  /-- The code dereferences `iter->tail`, which points to no allocated node;
  the state is left as it was. -/
  | bad_pointer
  deriving DecidableEq, Repr

/-- The function `py_iter_append`. `entry` is what `calloc` returned. -/
def py_iter_append (entry : Option Nat) (mem : Memory) (iter : LogIteratorObject)
    (tuple : PyObject) : Memory × LogIteratorObject × AppendResult :=
  match entry with
  | none => (mem, iter, AppendResult.no_memory)
  | some e =>
    let mem1 := mem.store e { tuple := tuple, next := none }
    let linked : Option (Memory × LogIteratorObject) :=
      match iter.tail with
      | none => some (mem1, { iter with tail := some e })
      | some t =>
        match mem1 t with
        | none => none
        | some node => some (mem1.store t { node with next := some e }, { iter with tail := some e })
    match linked with
    | none => (mem, iter, AppendResult.bad_pointer)
    | some (mem2, iter2) =>
      let iter3 := if iter2.head = none then { iter2 with head := some e } else iter2
      (mem2, { iter3 with queue_size := int_wrap (iter3.queue_size + 1) }, AppendResult.none_returned)

/-! ## The worker: the log receivers and `py_iter_log` -/

/-- Modelled from the spec: PyErr_NewSubversionException is defined in
subvertpy's `util.c`, not in this file. The spec: "if the call failed, stores
the native error as `deferredError`", an error "carrying the native error
payload". -/
def PyErr_NewSubversionException (error : svn_error_t) : Option PyObject :=
  some (PyObject.SubversionException error)

/-- What the helpers called during one invocation of a log receiver return:
`pyify_changed_paths`, `prop_hash_to_dict` (`PyDict_New` in the legacy
receiver), `Py_BuildValue`, the `calloc` of `py_iter_append`, and
`py_svn_error()`. -/
structure receiver_env where
  py_changed_paths : Option PyObject
  revprops : Option PyObject
  tuple : Option PyObject
  entry : Option Nat
  py_svn_error : svn_error_t
  deriving DecidableEq, Repr

/-- The receiver `py_iter_log_entry_cb` (compiled when
`SVN_VER_MAJOR == 1 && SVN_VER_MINOR >= 5`). It returns the native error, or
`none` for `return NULL`. -/
def py_iter_log_entry_cb (x : receiver_env) (mem : Memory) (iter : LogIteratorObject) :
    Memory × LogIteratorObject × Option svn_error_t :=
  match x.py_changed_paths with
  | none => (mem, iter, some x.py_svn_error)
  | some _ =>
    match x.revprops with
    | none => (mem, iter, some x.py_svn_error)
    | some _ =>
      match x.tuple with
      | none => (mem, iter, some x.py_svn_error)
      | some tuple =>
        match py_iter_append x.entry mem iter tuple with
        | (mem1, iter1, AppendResult.none_returned) => (mem1, iter1, none)
        | (mem1, iter1, _) => (mem1, iter1, some x.py_svn_error)

/-- The receiver `py_iter_log_cb` (compiled otherwise). The revision
properties dictionary is filled from `message`, `author` and `date` before the
tuple is built; the dictionary and the tuple are opaque objects here, so the
control flow is that of `py_iter_log_entry_cb`. -/
def py_iter_log_cb (x : receiver_env) (mem : Memory) (iter : LogIteratorObject) :
    Memory × LogIteratorObject × Option svn_error_t :=
  match x.py_changed_paths with
  | none => (mem, iter, some x.py_svn_error)
  | some _ =>
    match x.revprops with
    | none => (mem, iter, some x.py_svn_error)
    | some _ =>
      match x.tuple with
      | none => (mem, iter, some x.py_svn_error)
      | some tuple =>
        match py_iter_append x.entry mem iter tuple with
        | (mem1, iter1, AppendResult.none_returned) => (mem1, iter1, none)
        | (mem1, iter1, _) => (mem1, iter1, some x.py_svn_error)

/-- The condition `SVN_VER_MAJOR == 1 && SVN_VER_MINOR >= 5` that selects
`py_iter_log_entry_cb` and `svn_ra_get_log2`. -/
def modern_fetch (SVN_VER_MAJOR SVN_VER_MINOR : Nat) : Bool :=
  SVN_VER_MAJOR == 1 && decide (SVN_VER_MINOR ≥ 5)

/-- The condition `SVN_VER_MAJOR <= 1 && SVN_VER_MINOR < 5` that compiles the
request restrictions of `ra_iter_log`. -/
def legacy_restrictions (SVN_VER_MAJOR SVN_VER_MINOR : Nat) : Bool :=
  decide (SVN_VER_MAJOR ≤ 1) && decide (SVN_VER_MINOR < 5)

/-- The native call `py_iter_log` makes, with its arguments (the receiver is
the one of the same branch and the baton is the iterator). -/
inductive native_call
  | svn_ra_get_log2 (session : Nat) (paths : Option (List String)) (start end_ limit : Int)
      (discover_changed_paths strict_node_history include_merged_revisions : Bool)
      (revprops : Option (List String)) (pool : Nat)
  | svn_ra_get_log (session : Nat) (paths : Option (List String)) (start end_ limit : Int)
      (discover_changed_paths strict_node_history : Bool) (pool : Nat)
  deriving DecidableEq, Repr

/-- The first part of `py_iter_log`: which native function is called, on which
arguments. `ra` is the connection object `iter->ra` points to. -/
def py_iter_log_call (SVN_VER_MAJOR SVN_VER_MINOR : Nat) (ra : RemoteAccessObject)
    (iter : LogIteratorObject) : native_call :=
  if modern_fetch SVN_VER_MAJOR SVN_VER_MINOR then
    native_call.svn_ra_get_log2 ra.ra iter.apr_paths iter.start iter.end_ iter.limit
      iter.discover_changed_paths iter.strict_node_history iter.include_merged_revisions
      iter.apr_revprops iter.pool
  else
    native_call.svn_ra_get_log ra.ra iter.apr_paths iter.start iter.end_ iter.limit
      iter.discover_changed_paths iter.strict_node_history iter.pool

/-- The last part of `py_iter_log`, run with the GIL held once the native call
has returned `error`. `ra` is the connection object `iter->ra` points to. -/
def py_iter_log_finish (error : Option svn_error_t) (ra : RemoteAccessObject)
    (iter : LogIteratorObject) : RemoteAccessObject × LogIteratorObject :=
  let iter1 := { iter with done := true }
  let ra1 := { ra with busy := false }
  match error with
  | some e => (ra1, { iter1 with exception := PyErr_NewSubversionException e })
  | none => (ra1, iter1)

/-- A stub of the native library for one call: the receiver invocations it
makes, each with what the helpers return during it, and the error it returns
when no receiver invocation fails. -/
structure native_run where
  reports : List receiver_env
  result : Option svn_error_t
  deriving DecidableEq, Repr

/-- The stub native call: it invokes the receiver once per report, in order,
stops at the first invocation that returns an error and returns that error. -/
def svn_ra_get_log_stub
    (receiver : receiver_env → Memory → LogIteratorObject →
      Memory × LogIteratorObject × Option svn_error_t)
    (result : Option svn_error_t) :
    List receiver_env → Memory → LogIteratorObject →
      Memory × LogIteratorObject × Option svn_error_t
  | [], mem, iter => (mem, iter, result)
  | x :: rest, mem, iter =>
    match receiver x mem iter with
    | (mem1, iter1, none) => svn_ra_get_log_stub receiver result rest mem1 iter1
    | (mem1, iter1, some e) => (mem1, iter1, some e)

/-- The function `py_iter_log`, run against a stub of the native library. -/
def py_iter_log (SVN_VER_MAJOR SVN_VER_MINOR : Nat) (native : native_call → native_run)
    (ra : RemoteAccessObject) (mem : Memory) (iter : LogIteratorObject) :
    RemoteAccessObject × Memory × LogIteratorObject :=
  let run := native (py_iter_log_call SVN_VER_MAJOR SVN_VER_MINOR ra iter)
  let receiver :=
    if modern_fetch SVN_VER_MAJOR SVN_VER_MINOR then py_iter_log_entry_cb else py_iter_log_cb
  match svn_ra_get_log_stub receiver run.result run.reports mem iter with
  | (mem1, iter1, error) =>
    let fin := py_iter_log_finish error ra iter1
    (fin.1, mem1, fin.2)

/-! ## The two threads -/

/-- The state both threads share: the queue nodes, the connection object and
the iterator. -/
structure System where
  mem : Memory
  ra : RemoteAccessObject
  iter : LogIteratorObject

/-- One atomic step of one of the threads (each runs with the GIL held). -/
inductive Event
  /-- The worker, inside a receiver, calls `py_iter_append`; `entry` is what
  `calloc` returns. -/
  | append (entry : Option Nat) (tuple : PyObject)
  /-- The native call has returned `error`; the worker runs the rest of
  `py_iter_log`. -/
  | finish (error : Option svn_error_t)
  /-- The consumer runs `log_iter_next` for one pass of its loop: the call
  returns, or it releases the GIL and goes on waiting. -/
  | next
  deriving DecidableEq, Repr

/-- The effect of one event, and what `log_iter_next` returned if a call of it
ended in this step. -/
def step (exccls : Option PyObject) (s : System) : Event → System × Option NextResult
  | Event.append entry tuple =>
    match py_iter_append entry s.mem s.iter tuple with
    | (mem1, iter1, _) => ({ s with mem := mem1, iter := iter1 }, none)
  | Event.finish error =>
    match py_iter_log_finish error s.ra s.iter with
    | (ra1, iter1) => ({ s with ra := ra1, iter := iter1 }, none)
  | Event.next =>
    match log_iter_next exccls 1 s.mem s.iter with
    | none => (s, none)
    | some (mem1, iter1, r) => ({ s with mem := mem1, iter := iter1 }, some r)

/-- The effect of an interleaving, and what the calls of `log_iter_next` that
ended during it returned, in order. -/
def run (exccls : Option PyObject) : System → List Event → System × List NextResult
  | s, [] => (s, [])
  | s, ev :: rest =>
    match step exccls s ev with
    | (s1, none) => run exccls s1 rest
    | (s1, some r) => ((run exccls s1 rest).1, r :: (run exccls s1 rest).2)

/-- The contract of `calloc` along an interleaving: an address it returns is
not the address of a node allocated at that moment. -/
def calloc_fresh (exccls : Option PyObject) : System → List Event → Bool
  | _, [] => true
  | s, ev :: rest =>
    (match ev with
      | Event.append (some e) _ => (s.mem e).isNone
      | _ => true) && calloc_fresh exccls (step exccls s ev).1 rest

/-- Every step of the consumer in the interleaving finds the queue non-empty. -/
def next_on_nonempty (exccls : Option PyObject) : System → List Event → Bool
  | _, [] => true
  | s, ev :: rest =>
    (match ev with
      | Event.next => s.iter.head.isSome
      | _ => true) && next_on_nonempty exccls (step exccls s ev).1 rest

/-- The steps of the worker in an interleaving. -/
def worker_events (evs : List Event) : List Event :=
  evs.filter (fun ev => decide (ev ≠ Event.next))

/-- The events of a worker that appends the given tuples, at the given
addresses, and then finishes with `error`. -/
def worker_script (appended : List (Nat × PyObject)) (error : Option svn_error_t) : List Event :=
  appended.map (fun p => Event.append (some p.1) p.2) ++ [Event.finish error]

/-- What `log_iter_next` reports once the worker has finished with `error` and
the queue is empty. -/
def terminal_outcome (exccls : PyObject) (error : Option svn_error_t) : NextResult :=
  match error with
  | some e => NextResult.raised exccls (PyObject.SubversionException e)
  | none => NextResult.StopIteration

/-- The nodes of the queue: `chain mem p cells` says that following the `next`
links from `p` visits exactly the nodes `cells` (address and tuple of each) and
then reaches `NULL`. -/
def chain (mem : Memory) : Option Nat → List (Nat × PyObject) → Prop
  | p, [] => p = none
  | p, c :: rest => p = some c.1 ∧ ∃ n, mem c.1 = some { tuple := c.2, next := n } ∧ chain mem n rest

/-- The part of a queue from `p` up to a node whose `next` link is `q`. -/
def segment (mem : Memory) : Option Nat → List (Nat × PyObject) → Option Nat → Prop
  | p, [], q => p = q
  | p, c :: rest, q =>
    p = some c.1 ∧ ∃ n, mem c.1 = some { tuple := c.2, next := n } ∧ segment mem n rest q

/-- The pointers of the queue are consistent with the nodes `cells`: these are
what is reachable from `head`; `head` is `NULL` exactly when `tail` is; `tail`,
when not `NULL`, is the last node and its `next` link is `NULL`; no node occurs
twice. -/
def queue_shape (mem : Memory) (iter : LogIteratorObject) (cells : List (Nat × PyObject)) : Prop :=
  chain mem iter.head cells ∧
  (iter.head = none ↔ iter.tail = none) ∧
  iter.tail = (cells.getLast?).map Prod.fst ∧
  (∀ t, iter.tail = some t → ∃ node, mem t = some node ∧ node.next = none) ∧
  (cells.map Prod.fst).Nodup

/-- The queue is well formed with nodes `cells`: the pointers are consistent
with them and `queue_size` is their number (as a C `int`). -/
def well_formed (mem : Memory) (iter : LogIteratorObject) (cells : List (Nat × PyObject)) : Prop :=
  queue_shape mem iter cells ∧ iter.queue_size = int_wrap cells.length

/-- The tuples of the appends of an interleaving whose allocation succeeded. -/
def appended_tuples : List Event → List PyObject
  | [] => []
  | Event.append (some _) tuple :: rest => tuple :: appended_tuples rest
  | _ :: rest => appended_tuples rest

/-! ## The request: `ra_iter_log` -/

/-- A Python argument as `ra_iter_log` looks at it. A string item is the C
string `PyString_AsString` gives; an item that is not a string is `none`. -/
inductive PyArg
  /-- The object `Py_None`. -/
  | None
  /-- A list and its items. -/
  | list (items : List (Option String))
  /-- A sequence that is not a list (`PySequence_Check` holds), and its items. -/
  | sequence (items : List (Option String))
  /-- An object that is not a sequence. -/
  | other
  deriving DecidableEq, Repr

/-- The arguments of `iter_log` once `PyArg_ParseTupleAndKeywords` has stored
them; an optional argument that the caller left out is `none`. -/
structure iter_log_args where
  paths : PyArg
  start : Int
  end_ : Int
  limit : Option Int
  discover_changed_paths : Option Bool
  strict_node_history : Option Bool
  include_merged_revisions : Option Bool
  revprops : Option PyArg
  deriving DecidableEq, Repr

/-- The Python error a failed call leaves set. -/
inductive PyErr
  /-- The error of `PyArg_ParseTupleAndKeywords`. -/
  | arguments
  /-- The error of `ra_check_busy`: the connection is busy. -/
  | busy
  /-- The error of `Pool`. -/
  | pool
  /-- The error of `path_list_to_apr_array`. -/
  | path_list
  /-- The error of `string_list_to_apr_array`. -/
  | string_list
  | NotImplementedError (message : String)
  | TypeError (message : String)
  deriving DecidableEq, Repr

/-- What `ra_iter_log` returns. -/
inductive iter_log_return
  /-- The call returns `NULL` with an error set. -/
  | NULL (error : PyErr)
  /-- The call has undefined behaviour: it passes `NULL` to `strcmp`, or writes
  through the `NULL` that `PyObject_New` returned. -/
  | undefined
  /-- The call returns the new iterator. -/
  | iterator (ret : LogIteratorObject)
  deriving DecidableEq, Repr

/-- The outcome of `ra_iter_log`: the connection object after the call, the
value returned, and the baton of the thread started with
`PyThread_start_new_thread(py_iter_log, ret)`, if one was. -/
structure iter_log_outcome where
  ra : RemoteAccessObject
  ret : iter_log_return
  thread : Option LogIteratorObject
  deriving DecidableEq, Repr

/-- What `ra_iter_log` takes from outside this file: the version macros of the
Subversion headers, the three property names of `svn_props.h`, what
`Pool(NULL)` returns, and what `PyObject_New` returns (`NULL`, or a new object
whose fields hold whatever the allocated memory held). -/
structure iter_log_env where
  SVN_VER_MAJOR : Nat
  SVN_VER_MINOR : Nat
  SVN_PROP_REVISION_LOG : String
  SVN_PROP_REVISION_AUTHOR : String
  SVN_PROP_REVISION_DATE : String
  Pool : Option Nat
  PyObject_New : Option LogIteratorObject
  deriving DecidableEq, Repr

/-- Modelled from the spec: ra_check_busy is defined in subvertpy's `_ra.c`,
not in this file. The spec: "Connection must not be busy; else fail with a
connection busy error", and the busy flag is "set synchronously at request
time, cleared only by the worker when it finishes". `ra_iter_log` itself never
stores `true` in the flag, so the check is what sets it. The result is the
connection object after the call and the value returned (`true`: busy, an
error is set). -/
def ra_check_busy (ra : RemoteAccessObject) : RemoteAccessObject × Bool :=
  if ra.busy then (ra, true) else ({ ra with busy := true }, false)

/-- The strings of a list of items, if every item is a string. -/
def all_strings : List (Option String) → Option (List String)
  | [] => some []
  | none :: _ => none
  | some s :: rest => (all_strings rest).map (fun l => s :: l)

/-- Modelled from the spec: path_list_to_apr_array is defined in subvertpy's
`util.c`, not in this file. The spec: "translation of path lists ... into
native argument arrays", a simple translation: a list of strings becomes the
array of these strings, anything else is refused. `none` is the value `false`
(an error is set); `some a` is `true` with `a` stored in the result. -/
def path_list_to_apr_array (l : PyArg) : Option (Option (List String)) :=
  match l with
  | PyArg.list items => (all_strings items).map some
  | _ => none

/-- Modelled from the spec: string_list_to_apr_array is defined in subvertpy's
`util.c`, not in this file. The spec: "translation of ... revision-property
name lists into native argument arrays", where `revprops = none` is the
request for all properties (the `NULL` array): a list of strings becomes the
array of these strings, `Py_None` the `NULL` array, anything else is refused. -/
def string_list_to_apr_array (l : PyArg) : Option (Option (List String)) :=
  match l with
  | PyArg.None => some none
  | PyArg.list items => (all_strings items).map some
  | _ => none

/-- The loop of `ra_iter_log` over the items of `revprops`: `none` when it runs
to its end, or the way the call ends inside it. -/
def check_revprops (env : iter_log_env) : List (Option String) → Option iter_log_return
  | [] => none
  | none :: _ => some iter_log_return.undefined
  | some n :: rest =>
    if env.SVN_PROP_REVISION_LOG ≠ n ∧ env.SVN_PROP_REVISION_AUTHOR ≠ n ∧
        env.SVN_PROP_REVISION_DATE ≠ n then
      some (iter_log_return.NULL
        (PyErr.NotImplementedError "fetching custom revision properties not supported"))
    else check_revprops env rest

/-- The block of `ra_iter_log` under `#if SVN_VER_MAJOR <= 1 && SVN_VER_MINOR < 5`:
`none` when control leaves it at its end, or the way the call ends inside it. -/
def legacy_checks (env : iter_log_env) (revprops : PyArg) (include_merged_revisions : Bool) :
    Option iter_log_return :=
  let merged : Option iter_log_return :=
    if include_merged_revisions then
      some (iter_log_return.NULL
        (PyErr.NotImplementedError "include_merged_revisions not supported in Subversion 1.4"))
    else none
  match revprops with
  | PyArg.None =>
    some (iter_log_return.NULL
      (PyErr.NotImplementedError "fetching all revision properties not supported"))
  | PyArg.other =>
    some (iter_log_return.NULL (PyErr.TypeError "revprops should be a sequence"))
  | PyArg.list items =>
    match check_revprops env items with
    | some r => some r
    | none => merged
  | PyArg.sequence items =>
    match check_revprops env items with
    | some r => some r
    | none => merged

/-- The function `ra_iter_log`. `self` is the address of the connection object
and `ra` the object; `args` is `none` when `PyArg_ParseTupleAndKeywords` fails. -/
def ra_iter_log (env : iter_log_env) (self : Nat) (ra : RemoteAccessObject)
    (args : Option iter_log_args) : iter_log_outcome :=
  match args with
  | none => { ra := ra, ret := iter_log_return.NULL PyErr.arguments, thread := none }
  | some a =>
    let paths := a.paths
    let start := a.start
    let end_ := a.end_
    let limit := a.limit.getD 0
    let discover_changed_paths := a.discover_changed_paths.getD false
    -- strict_node_history is parsed too (default true); the code does not use it again
    let include_merged_revisions := a.include_merged_revisions.getD false
    let revprops := a.revprops.getD PyArg.None
    match ra_check_busy ra with
    | (ra1, true) => { ra := ra1, ret := iter_log_return.NULL PyErr.busy, thread := none }
    | (ra1, false) =>
      match env.Pool with
      | none => { ra := ra1, ret := iter_log_return.NULL PyErr.pool, thread := none }
      | some temp_pool =>
        match (if paths = PyArg.None then some (some [""]) else path_list_to_apr_array paths) with
        | none => { ra := ra1, ret := iter_log_return.NULL PyErr.path_list, thread := none }
        | some apr_paths =>
          match (if legacy_restrictions env.SVN_VER_MAJOR env.SVN_VER_MINOR then
                  legacy_checks env revprops include_merged_revisions else none) with
          | some r => { ra := ra1, ret := r, thread := none }
          | none =>
            match string_list_to_apr_array revprops with
            | none => { ra := ra1, ret := iter_log_return.NULL PyErr.string_list, thread := none }
            | some apr_revprops =>
              match env.PyObject_New with
              | none => { ra := ra1, ret := iter_log_return.undefined, thread := none }
              | some object =>
                let ret : LogIteratorObject :=
                  { object with
                    ra := self
                    start := start
                    exception := none
                    discover_changed_paths := discover_changed_paths
                    end_ := end_
                    limit := limit
                    apr_paths := apr_paths
                    pool := temp_pool
                    include_merged_revisions := include_merged_revisions
                    apr_revprops := apr_revprops
                    done := false
                    queue_size := 0
                    head := none
                    tail := none }
                { ra := ra1, ret := iter_log_return.iterator ret, thread := some ret }

/-- The value `ra_iter_log` received for `strict_node_history`: the caller's,
or the default `true` of the declaration. -/
def requested_strict_node_history (a : iter_log_args) : Bool :=
  a.strict_node_history.getD true

/-- The request is one the legacy native call cannot serve: all revision
properties, a property name other than the three of the legacy receiver, or
merged revisions. -/
def unsupported_on_legacy (env : iter_log_env) (a : iter_log_args) : Prop :=
  a.revprops.getD PyArg.None = PyArg.None ∨
  (∃ items n, a.revprops.getD PyArg.None = PyArg.list items ∧ some n ∈ items ∧
    n ≠ env.SVN_PROP_REVISION_LOG ∧ n ≠ env.SVN_PROP_REVISION_AUTHOR ∧
    n ≠ env.SVN_PROP_REVISION_DATE) ∨
  a.include_merged_revisions.getD false = true

/-- The call failed with `NotImplementedError`. -/
def is_not_implemented : iter_log_return → Bool
  | iter_log_return.NULL (PyErr.NotImplementedError _) => true
  | _ => false

/-- The steps of the worker when `py_iter_log` runs against a stub with the
given reports, and the error the native call returns: a receiver invocation
whose helpers all succeed is one `py_iter_append` call; the first invocation
in which a helper or the allocation fails ends the native call. -/
def stub_script (result : Option svn_error_t) : List receiver_env → List Event × Option svn_error_t
  | [] => ([], result)
  | x :: rest =>
    match x.py_changed_paths, x.revprops, x.tuple with
    | some _, some _, some tuple =>
      match x.entry with
      | some e =>
        (Event.append (some e) tuple :: (stub_script result rest).1, (stub_script result rest).2)
      | none => ([Event.append none tuple], some x.py_svn_error)
    | _, _, _ => ([], some x.py_svn_error)

/-! ## Concrete states for the examples -/

/-- An iterator as `ra_iter_log` leaves it. -/
def example_iter : LogIteratorObject :=
  { start := 0, end_ := 10, discover_changed_paths := false, strict_node_history := true,
    include_merged_revisions := false, limit := 0, pool := 1, apr_paths := some [""],
    apr_revprops := none, ra := 7, done := false, exception := none, queue_size := 0,
    head := none, tail := none }

/-- A system with no queue node allocated, a busy connection and a new iterator. -/
def example_system : System :=
  { mem := fun _ => none, ra := { ra := 3, busy := true }, iter := example_iter }

/-- An interleaving in which the worker appends three tuples while the consumer
takes them; the third node reuses the address the first one had. -/
def example_events : List Event :=
  [Event.append (some 100) (PyObject.object 1), Event.append (some 200) (PyObject.object 2),
   Event.next, Event.append (some 100) (PyObject.object 3), Event.next, Event.next]

/-- The `paths` argument of a native call. -/
def native_call.paths : native_call → Option (List String)
  | native_call.svn_ra_get_log2 _ paths _ _ _ _ _ _ _ _ => paths
  | native_call.svn_ra_get_log _ paths _ _ _ _ _ _ => paths

/-- The `strict_node_history` argument of a native call. -/
def native_call.strict_node_history : native_call → Bool
  | native_call.svn_ra_get_log2 _ _ _ _ _ _ strict _ _ _ => strict
  | native_call.svn_ra_get_log _ _ _ _ _ _ strict _ => strict

/-- The native call is the legacy one, `svn_ra_get_log`, which takes neither
`include_merged_revisions` nor a list of revision properties. -/
def native_call.is_legacy : native_call → Bool
  | native_call.svn_ra_get_log2 _ _ _ _ _ _ _ _ _ _ => false
  | native_call.svn_ra_get_log _ _ _ _ _ _ _ _ => true

/-- The memory of a new object before `ra_iter_log` fills it in: every field
holds something left over. -/
def uninitialised_object : LogIteratorObject :=
  { start := -1, end_ := -1, discover_changed_paths := true, strict_node_history := false,
    include_merged_revisions := true, limit := 77, pool := 0, apr_paths := none,
    apr_revprops := none, ra := 0, done := true,
    exception := some (PyObject.object 5), queue_size := 12345, head := some 9,
    tail := some 8 }

/-- A build against Subversion 1.6 in which the allocations succeed. -/
def modern_env : iter_log_env :=
  { SVN_VER_MAJOR := 1, SVN_VER_MINOR := 6, SVN_PROP_REVISION_LOG := "svn:log",
    SVN_PROP_REVISION_AUTHOR := "svn:author", SVN_PROP_REVISION_DATE := "svn:date",
    Pool := some 1, PyObject_New := some uninitialised_object }

/-- A build against Subversion 1.4 in which the allocations succeed. -/
def legacy_env : iter_log_env := { modern_env with SVN_VER_MINOR := 4 }

/-- A build against a Subversion whose major version is 2. -/
def next_major_env : iter_log_env := { modern_env with SVN_VER_MAJOR := 2, SVN_VER_MINOR := 0 }

/-- The request `iter_log(None, 0, 10)`. -/
def example_args : iter_log_args :=
  { paths := PyArg.None, start := 0, end_ := 10, limit := none,
    discover_changed_paths := none, strict_node_history := none,
    include_merged_revisions := none, revprops := none }

/-- The request `iter_log(None, 0, 10, revprops=["svn:log"])`. -/
def legacy_args : iter_log_args :=
  { example_args with revprops := some (PyArg.list [some "svn:log"]) }

/-- The request `iter_log(42, 0, 10)`, whose paths are not a list. -/
def bad_paths_args : iter_log_args := { example_args with paths := PyArg.other }

/-- The request `iter_log(None, 0, 10, include_merged_revisions=True)`. -/
def merged_args : iter_log_args := { example_args with include_merged_revisions := some true }

/-- A connection that is not busy. -/
def idle_connection : RemoteAccessObject := { ra := 3, busy := false }

/-! ## Arithmetic of `int` and memory lemmas -/

theorem int_wrap_succ (x : Int) : int_wrap (int_wrap x + 1) = int_wrap (x + 1) := by
  unfold int_wrap; omega

theorem int_wrap_pred (x : Int) : int_wrap (int_wrap (x + 1) - 1) = int_wrap x := by
  unfold int_wrap; omega

theorem int_wrap_small (n : Nat) (h : n < 2147483648) : int_wrap (n : Int) = (n : Int) := by
  unfold int_wrap; omega

theorem chain_iff_segment (mem : Memory) (cells : List (Nat × PyObject)) (p : Option Nat) :
    chain mem p cells ↔ segment mem p cells none := by
  induction cells generalizing p with
  | nil => simp [chain, segment]
  | cons c rest ih => simp [chain, segment, ih]

theorem segment_append (mem : Memory) (xs ys : List (Nat × PyObject)) (p q : Option Nat) :
    segment mem p (xs ++ ys) q ↔ ∃ r, segment mem p xs r ∧ segment mem r ys q := by
  induction xs generalizing p with
  | nil => simp [segment]
  | cons c rest ih =>
    show segment mem p (c :: (rest ++ ys)) q ↔ _
    constructor
    · rintro ⟨hp, n, hn, h⟩
      obtain ⟨r, h1, h2⟩ := (ih n).mp h
      exact ⟨r, ⟨hp, n, hn, h1⟩, h2⟩
    · rintro ⟨r, ⟨hp, n, hn, h1⟩, h2⟩
      exact ⟨hp, n, hn, (ih n).mpr ⟨r, h1, h2⟩⟩

theorem segment_frame (mem mem1 : Memory) (cells : List (Nat × PyObject)) (p q : Option Nat)
    (hsame : ∀ c ∈ cells, mem1 c.1 = mem c.1) (h : segment mem p cells q) :
    segment mem1 p cells q := by
  induction cells generalizing p with
  | nil => simpa [segment] using h
  | cons c rest ih =>
    obtain ⟨hp, n, hn, hrest⟩ := h
    refine ⟨hp, n, ?_, ih n (fun d hd => hsame d (List.mem_cons_of_mem _ hd)) hrest⟩
    rw [hsame c (List.mem_cons_self _ _)]
    exact hn

theorem segment_allocated (mem : Memory) (cells : List (Nat × PyObject)) (p q : Option Nat)
    (h : segment mem p cells q) : ∀ c ∈ cells, mem c.1 ≠ none := by
  induction cells generalizing p with
  | nil => intro c hc; cases hc
  | cons c rest ih =>
    obtain ⟨_, n, hn, hrest⟩ := h
    intro d hd
    rcases List.mem_cons.mp hd with rfl | hd
    · rw [hn]; simp
    · exact ih n hrest d hd

/-! ## The two queue operations on a well-formed queue -/

theorem py_iter_append_shape (mem : Memory) (iter : LogIteratorObject)
    (cells : List (Nat × PyObject)) (e : Nat) (t : PyObject)
    (h : queue_shape mem iter cells) (hf : mem e = none) :
    (py_iter_append (some e) mem iter t).2.2 = AppendResult.none_returned ∧
    queue_shape (py_iter_append (some e) mem iter t).1 (py_iter_append (some e) mem iter t).2.1
      (cells ++ [(e, t)]) ∧
    (py_iter_append (some e) mem iter t).2.1.queue_size = int_wrap (iter.queue_size + 1) ∧
    (py_iter_append (some e) mem iter t).2.1.done = iter.done ∧
    (py_iter_append (some e) mem iter t).2.1.exception = iter.exception := by
  obtain ⟨hchain, hiff, htail, hlast, hnodup⟩ := h
  rcases List.eq_nil_or_concat cells with rfl | ⟨init, last, hcells⟩
  · have hhead : iter.head = none := by simpa [chain] using hchain
    have htl : iter.tail = none := by simpa using htail
    have key : py_iter_append (some e) mem iter t =
        (mem.store e { tuple := t, next := none },
          { iter with tail := some e, head := some e,
                      queue_size := int_wrap (iter.queue_size + 1) },
          AppendResult.none_returned) := by
      simp [py_iter_append, htl, hhead]
    rw [key]
    refine ⟨rfl, ⟨?_, ?_, ?_, ?_, ?_⟩, rfl, rfl, rfl⟩
    · exact ⟨rfl, none, by simp [Memory.store], rfl⟩
    · simp
    · simp
    · intro t1 ht1
      have : e = t1 := by simpa using ht1
      subst this
      exact ⟨{ tuple := t, next := none }, by simp [Memory.store], rfl⟩
    · simp
  · rw [List.concat_eq_append] at hcells
    subst hcells
    obtain ⟨ta, tt⟩ := last
    have htl : iter.tail = some ta := by simpa using htail
    have hhead : iter.head ≠ none := by
      intro hn
      rw [hiff.mp hn] at htl
      cases htl
    have hseg := (chain_iff_segment mem _ _).mp hchain
    obtain ⟨r, hinit, hl⟩ := (segment_append mem init [(ta, tt)] iter.head none).mp hseg
    obtain ⟨hr, n, hn, hnone⟩ := hl
    have hnn : n = none := hnone
    subst hnn
    have hr1 : r = some ta := hr
    subst hr1
    have hne : ta ≠ e := by
      intro heq
      rw [heq, hf] at hn
      cases hn
    have hnd : (init.map Prod.fst ++ [ta]).Nodup := by simpa using hnodup
    have hta_notin : ta ∉ init.map Prod.fst := by
      intro hmem
      have := (List.nodup_append.mp hnd).2.2
      exact this hmem (List.mem_singleton_self ta)
    have hall := segment_allocated mem (init ++ [(ta, tt)]) _ _ hseg
    have he_notin : ∀ c ∈ init ++ [(ta, tt)], c.1 ≠ e := by
      intro c hc heq
      exact hall c hc (heq ▸ hf)
    have key : py_iter_append (some e) mem iter t =
        ((mem.store e { tuple := t, next := none }).store ta { tuple := tt, next := some e },
          { iter with tail := some e, queue_size := int_wrap (iter.queue_size + 1) },
          AppendResult.none_returned) := by
      simp [py_iter_append, htl, Memory.store, hne, hn, hhead]
    rw [key]
    refine ⟨rfl, ⟨?_, ?_, ?_, ?_, ?_⟩, rfl, rfl, rfl⟩
    · rw [chain_iff_segment]
      refine (segment_append _ _ _ _ _).mpr ⟨some e, ?_, ?_⟩
      · refine (segment_append _ _ _ _ _).mpr ⟨some ta, ?_, ?_⟩
        · refine segment_frame mem _ init _ _ ?_ hinit
          intro c hc
          have h1 : c.1 ≠ ta := by
            intro heq
            exact hta_notin (heq ▸ List.mem_map_of_mem Prod.fst hc)
          have h2 : c.1 ≠ e := he_notin c (List.mem_append_left _ hc)
          simp [Memory.store, h1, h2]
        · exact ⟨rfl, some e, by simp [Memory.store], rfl⟩
      · refine ⟨rfl, none, ?_, rfl⟩
        have : e ≠ ta := fun h => hne h.symm
        simp [Memory.store, this]
    · simp [hhead]
    · simp
    · intro t1 ht1
      have : e = t1 := by simpa using ht1
      subst this
      have : e ≠ ta := fun h => hne h.symm
      exact ⟨{ tuple := t, next := none }, by simp [Memory.store, this], rfl⟩
    · have : (init.map Prod.fst ++ [ta] ++ [e]).Nodup := by
        refine List.nodup_append.mpr ⟨hnd, List.nodup_singleton e, ?_⟩
        intro a ha hb
        have hae : a = e := by simpa using hb
        subst hae
        have : a ∈ (init ++ [(ta, tt)]).map Prod.fst := by simpa using ha
        obtain ⟨c, hc, hca⟩ := List.mem_map.mp this
        exact he_notin c hc hca
      simpa using this

theorem log_iter_next_shape (exccls : Option PyObject) (fuel : Nat) (mem : Memory)
    (iter : LogIteratorObject) (a : Nat) (t : PyObject) (rest : List (Nat × PyObject))
    (h : queue_shape mem iter ((a, t) :: rest)) :
    ∃ iter1, log_iter_next exccls (fuel + 1) mem iter =
        some (mem.free a, iter1, NextResult.returned t) ∧
      queue_shape (mem.free a) iter1 rest ∧
      iter1.queue_size = int_wrap (iter.queue_size - 1) ∧
      iter1.done = iter.done ∧ iter1.exception = iter.exception := by
  obtain ⟨hchain, hiff, htail, hlast, hnodup⟩ := h
  obtain ⟨hhead, n, hn, hrest⟩ := hchain
  have hhead1 : iter.head = some a := hhead
  have hnd : a ∉ rest.map Prod.fst ∧ (rest.map Prod.fst).Nodup := by simpa using hnodup
  have hframe : ∀ c ∈ rest, (mem.free a) c.1 = mem c.1 := by
    intro c hc
    have : c.1 ≠ a := fun heq => hnd.1 (heq ▸ List.mem_map_of_mem Prod.fst hc)
    simp [Memory.free, this]
  rcases rest with _ | ⟨c, cs⟩
  · have htl : iter.tail = some a := by simpa using htail
    have hnn : n = none := hrest
    subst hnn
    refine ⟨{ iter with head := none, tail := none,
                        queue_size := int_wrap (iter.queue_size - 1) }, ?_,
      ⟨?_, ?_, ?_, ?_, ?_⟩, rfl, rfl, rfl⟩
    · simp [log_iter_next, hhead1, hn, htl]
    · rfl
    · simp
    · simp
    · intro t1 ht1
      cases ht1
    · simp
  · have htl : iter.tail = ((c :: cs).getLast?).map Prod.fst := by
      simpa [List.getLast?_cons_cons] using htail
    obtain ⟨l, hl⟩ : ∃ l, (c :: cs).getLast? = some l :=
      ⟨_, List.getLast?_eq_getLast (c :: cs) (by simp)⟩
    have hlmem : l ∈ c :: cs := List.mem_of_getLast?_eq_some hl
    have htl1 : iter.tail = some l.1 := by rw [htl, hl]; rfl
    have hla : l.1 ≠ a := fun heq => hnd.1 (heq ▸ List.mem_map_of_mem Prod.fst hlmem)
    have hnc : n = some c.1 := hrest.1
    refine ⟨{ iter with head := n, queue_size := int_wrap (iter.queue_size - 1) }, ?_,
      ⟨?_, ?_, ?_, ?_, ?_⟩, rfl, rfl, rfl⟩
    · have hne : ¬ (a = l.1) := fun heq => hla heq.symm
      simp [log_iter_next, hhead1, hn, htl1, hne]
    · have hseg := (chain_iff_segment mem _ _).mp hrest
      exact (chain_iff_segment _ _ _).mpr (segment_frame mem _ _ _ _ hframe hseg)
    · simp [hnc, htl1]
    · exact htl
    · intro t1 ht1
      have ht : iter.tail = some t1 := ht1
      obtain ⟨node, hnode, hnext⟩ := hlast t1 ht
      have : t1 ≠ a := by
        rw [htl1] at ht
        have : l.1 = t1 := by simpa using ht
        exact this ▸ hla
      exact ⟨node, by simp [Memory.free, this, hnode], hnext⟩
    · exact hnd.2

/-! ## Steps and interleavings -/

theorem run_cons_fst (exccls : Option PyObject) (s : System) (ev : Event) (rest : List Event) :
    (run exccls s (ev :: rest)).1 = (run exccls (step exccls s ev).1 rest).1 := by
  rcases h : step exccls s ev with ⟨s1, _ | r⟩ <;> simp [run, h]

theorem run_cons_snd (exccls : Option PyObject) (s : System) (ev : Event) (rest : List Event) :
    (run exccls s (ev :: rest)).2 =
      (step exccls s ev).2.toList ++ (run exccls (step exccls s ev).1 rest).2 := by
  rcases h : step exccls s ev with ⟨s1, _ | r⟩ <;> simp [run, h]

theorem run_append_fst (exccls : Option PyObject) (xs ys : List Event) (s : System) :
    (run exccls s (xs ++ ys)).1 = (run exccls (run exccls s xs).1 ys).1 := by
  induction xs generalizing s with
  | nil => rfl
  | cons ev rest ih => simp only [List.cons_append, run_cons_fst, ih]

theorem run_append_snd (exccls : Option PyObject) (xs ys : List Event) (s : System) :
    (run exccls s (xs ++ ys)).2 =
      (run exccls s xs).2 ++ (run exccls (run exccls s xs).1 ys).2 := by
  induction xs generalizing s with
  | nil => rfl
  | cons ev rest ih =>
    simp only [List.cons_append, run_cons_fst, run_cons_snd, ih, List.append_assoc]

theorem step_append_none (exccls : Option PyObject) (s : System) (t : PyObject) :
    step exccls s (Event.append none t) = (s, none) := by
  simp [step, py_iter_append]

theorem step_append_some (exccls : Option PyObject) (s : System) (cells : List (Nat × PyObject))
    (e : Nat) (t : PyObject) (h : queue_shape s.mem s.iter cells) (hf : s.mem e = none) :
    (step exccls s (Event.append (some e) t)).2 = none ∧
    queue_shape (step exccls s (Event.append (some e) t)).1.mem
      (step exccls s (Event.append (some e) t)).1.iter (cells ++ [(e, t)]) ∧
    (step exccls s (Event.append (some e) t)).1.iter.queue_size =
      int_wrap (s.iter.queue_size + 1) ∧
    (step exccls s (Event.append (some e) t)).1.iter.done = s.iter.done ∧
    (step exccls s (Event.append (some e) t)).1.iter.exception = s.iter.exception ∧
    (step exccls s (Event.append (some e) t)).1.ra = s.ra := by
  obtain ⟨_, h2, h3, h4, h5⟩ := py_iter_append_shape s.mem s.iter cells e t h hf
  rcases hp : py_iter_append (some e) s.mem s.iter t with ⟨mem1, iter1, r⟩
  rw [hp] at h2 h3 h4 h5
  simp only [step, hp]
  exact ⟨trivial, h2, h3, h4, h5, trivial⟩

theorem queue_shape_congr (mem : Memory) (iter iter1 : LogIteratorObject)
    (cells : List (Nat × PyObject)) (hh : iter1.head = iter.head) (ht : iter1.tail = iter.tail)
    (h : queue_shape mem iter cells) : queue_shape mem iter1 cells := by
  unfold queue_shape at *
  rw [hh, ht]
  exact h

theorem step_finish (exccls : Option PyObject) (s : System) (error : Option svn_error_t) :
    (step exccls s (Event.finish error)).2 = none ∧
    (step exccls s (Event.finish error)).1.mem = s.mem ∧
    (step exccls s (Event.finish error)).1.iter.head = s.iter.head ∧
    (step exccls s (Event.finish error)).1.iter.tail = s.iter.tail ∧
    (step exccls s (Event.finish error)).1.iter.queue_size = s.iter.queue_size ∧
    (step exccls s (Event.finish error)).1.iter.done = true ∧
    (step exccls s (Event.finish error)).1.iter.exception =
      (match error with
        | some e => some (PyObject.SubversionException e)
        | none => s.iter.exception) ∧
    (step exccls s (Event.finish error)).1.ra = { s.ra with busy := false } := by
  cases error <;>
    simp [step, py_iter_log_finish, PyErr_NewSubversionException]

theorem step_next_cons (exccls : Option PyObject) (s : System) (a : Nat) (t : PyObject)
    (rest : List (Nat × PyObject)) (h : queue_shape s.mem s.iter ((a, t) :: rest)) :
    (step exccls s Event.next).2 = some (NextResult.returned t) ∧
    queue_shape (step exccls s Event.next).1.mem (step exccls s Event.next).1.iter rest ∧
    (step exccls s Event.next).1.iter.queue_size = int_wrap (s.iter.queue_size - 1) ∧
    (step exccls s Event.next).1.iter.done = s.iter.done ∧
    (step exccls s Event.next).1.iter.exception = s.iter.exception ∧
    (step exccls s Event.next).1.ra = s.ra := by
  obtain ⟨iter1, h1, h2, h3, h4, h5⟩ := log_iter_next_shape exccls 0 s.mem s.iter a t rest h
  simp only [step, h1]
  exact ⟨trivial, h2, h3, h4, h5, trivial⟩

theorem step_next_waiting (exccls : Option PyObject) (s : System) (hh : s.iter.head = none)
    (hd : s.iter.done = false) : step exccls s Event.next = (s, none) := by
  simp [step, log_iter_next, hh, hd]

theorem step_next_done (cls : PyObject) (s : System) (hh : s.iter.head = none)
    (hd : s.iter.done = true) :
    step (some cls) s Event.next =
      (s, some (match s.iter.exception with
        | some exception => NextResult.raised cls exception
        | none => NextResult.StopIteration)) := by
  cases hx : s.iter.exception <;> simp [step, log_iter_next, hh, hd, hx]

theorem log_iter_next_waiting (exccls : Option PyObject) (fuel : Nat) (mem : Memory)
    (iter : LogIteratorObject) (hh : iter.head = none) (hd : iter.done = false) :
    log_iter_next exccls fuel mem iter = none := by
  induction fuel with
  | zero => rfl
  | succ k ih => simp [log_iter_next, hh, hd, ih]

theorem log_iter_next_fuel (exccls : Option PyObject) (fuel : Nat) (mem : Memory)
    (iter : LogIteratorObject) :
    log_iter_next exccls (fuel + 1) mem iter = log_iter_next exccls 1 mem iter := by
  cases hh : iter.head with
  | some first => simp [log_iter_next, hh]
  | none =>
    cases hd : iter.done with
    | true => simp [log_iter_next, hh, hd]
    | false => rw [log_iter_next_waiting _ _ _ _ hh hd, log_iter_next_waiting _ _ _ _ hh hd]

theorem queue_shape_head_nil (mem : Memory) (iter : LogIteratorObject)
    (h : queue_shape mem iter []) : iter.head = none := by
  simpa [chain] using h.1

theorem queue_shape_empty (mem : Memory) (iter : LogIteratorObject)
    (hh : iter.head = none) (ht : iter.tail = none) : queue_shape mem iter [] := by
  refine ⟨hh, ?_, ?_, ?_, ?_⟩
  · simp [hh, ht]
  · simp [ht]
  · intro t h
    rw [ht] at h
    cases h
  · simp

theorem run_fifo (exccls : Option PyObject) (evs : List Event) :
    ∀ (s : System) (cells : List (Nat × PyObject)), queue_shape s.mem s.iter cells →
      calloc_fresh exccls s evs = true → next_on_nonempty exccls s evs = true →
      (run exccls s evs).2 =
        ((cells.map Prod.snd ++ appended_tuples evs).take (evs.count Event.next)).map
          NextResult.returned := by
  induction evs with
  | nil => intro s cells _ _ _; simp [run]
  | cons ev rest ih =>
    intro s cells hq hf hn
    rw [run_cons_snd]
    simp only [calloc_fresh, next_on_nonempty, Bool.and_eq_true] at hf hn
    cases ev with
    | append entry t =>
      cases entry with
      | none =>
        rw [step_append_none] at hf hn ⊢
        rw [ih s cells hq hf.2 hn.2]
        simp [appended_tuples, List.count_cons]
      | some e =>
        have hfe : s.mem e = none := by simpa using hf.1
        obtain ⟨h1, h2, _⟩ := step_append_some exccls s cells e t hq hfe
        rw [h1, ih _ _ h2 hf.2 hn.2]
        simp [appended_tuples, List.count_cons]
    | finish error =>
      obtain ⟨h1, h2, h3, h4, _⟩ := step_finish exccls s error
      have hq1 : queue_shape (step exccls s (Event.finish error)).1.mem
          (step exccls s (Event.finish error)).1.iter cells := by
        rw [h2]
        exact queue_shape_congr _ _ _ _ h3 h4 hq
      rw [h1, ih _ _ hq1 hf.2 hn.2]
      simp [appended_tuples, List.count_cons]
    | next =>
      cases cells with
      | nil =>
        have := queue_shape_head_nil _ _ hq
        rw [this] at hn
        simp at hn
      | cons c cs =>
        obtain ⟨a, t⟩ := c
        obtain ⟨h1, h2, _⟩ := step_next_cons exccls s a t cs hq
        rw [h1, ih _ _ h2 hf.2 hn.2]
        simp [appended_tuples, List.count_cons]

theorem run_fifo_count (exccls : Option PyObject) (evs : List Event) :
    ∀ (s : System) (cells : List (Nat × PyObject)), queue_shape s.mem s.iter cells →
      calloc_fresh exccls s evs = true → next_on_nonempty exccls s evs = true →
      evs.count Event.next ≤ cells.length + (appended_tuples evs).length := by
  induction evs with
  | nil => intro s cells _ _ _; simp
  | cons ev rest ih =>
    intro s cells hq hf hn
    simp only [calloc_fresh, next_on_nonempty, Bool.and_eq_true] at hf hn
    cases ev with
    | append entry t =>
      cases entry with
      | none =>
        rw [step_append_none] at hf hn
        have := ih s cells hq hf.2 hn.2
        simpa [appended_tuples, List.count_cons] using this
      | some e =>
        have hfe : s.mem e = none := by simpa using hf.1
        obtain ⟨_, h2, _⟩ := step_append_some exccls s cells e t hq hfe
        have := ih _ _ h2 hf.2 hn.2
        simp only [List.length_append, List.length_singleton] at this
        simp only [appended_tuples, List.count_cons, List.length_cons]
        simp
        omega
    | finish error =>
      obtain ⟨_, h2, h3, h4, _⟩ := step_finish exccls s error
      have hq1 : queue_shape (step exccls s (Event.finish error)).1.mem
          (step exccls s (Event.finish error)).1.iter cells := by
        rw [h2]
        exact queue_shape_congr _ _ _ _ h3 h4 hq
      have := ih _ _ hq1 hf.2 hn.2
      simpa [appended_tuples, List.count_cons] using this
    | next =>
      cases cells with
      | nil =>
        have := queue_shape_head_nil _ _ hq
        rw [this] at hn
        simp at hn
      | cons c cs =>
        obtain ⟨a, t⟩ := c
        obtain ⟨_, h2, _⟩ := step_next_cons exccls s a t cs hq
        have := ih _ _ h2 hf.2 hn.2
        simp only [appended_tuples, List.count_cons, List.length_cons]
        simp
        omega

theorem run_appends (exccls : Option PyObject) (apps : List (Nat × PyObject)) :
    ∀ (s : System) (cells : List (Nat × PyObject)), queue_shape s.mem s.iter cells →
      calloc_fresh exccls s (apps.map (fun p => Event.append (some p.1) p.2)) = true →
      (run exccls s (apps.map (fun p => Event.append (some p.1) p.2))).2 = [] ∧
      queue_shape (run exccls s (apps.map (fun p => Event.append (some p.1) p.2))).1.mem
        (run exccls s (apps.map (fun p => Event.append (some p.1) p.2))).1.iter (cells ++ apps) ∧
      (run exccls s (apps.map (fun p => Event.append (some p.1) p.2))).1.iter.done = s.iter.done ∧
      (run exccls s (apps.map (fun p => Event.append (some p.1) p.2))).1.iter.exception =
        s.iter.exception ∧
      (run exccls s (apps.map (fun p => Event.append (some p.1) p.2))).1.ra = s.ra := by
  induction apps with
  | nil => intro s cells hq _; simpa [run] using hq
  | cons p rest ih =>
    intro s cells hq hf
    simp only [List.map_cons, calloc_fresh, Bool.and_eq_true] at hf
    have hfe : s.mem p.1 = none := by simpa using hf.1
    obtain ⟨h1, h2, _, h4, h5, h6⟩ := step_append_some exccls s cells p.1 p.2 hq hfe
    obtain ⟨i1, i2, i3, i4, i5⟩ := ih _ _ h2 hf.2
    simp only [List.map_cons, run_cons_fst, run_cons_snd, h1]
    refine ⟨by simpa using i1, ?_, by rw [i3, h4], by rw [i4, h5], by rw [i5, h6]⟩
    simpa using i2

theorem run_nexts (exccls : Option PyObject) (n : Nat) :
    ∀ (s : System) (cells : List (Nat × PyObject)), queue_shape s.mem s.iter cells →
      n ≤ cells.length →
      (run exccls s (List.replicate n Event.next)).2 =
        (cells.take n).map (fun c => NextResult.returned c.2) ∧
      queue_shape (run exccls s (List.replicate n Event.next)).1.mem
        (run exccls s (List.replicate n Event.next)).1.iter (cells.drop n) ∧
      (run exccls s (List.replicate n Event.next)).1.iter.done = s.iter.done ∧
      (run exccls s (List.replicate n Event.next)).1.iter.exception = s.iter.exception ∧
      (run exccls s (List.replicate n Event.next)).1.ra = s.ra := by
  induction n with
  | zero => intro s cells hq _; simpa [run] using hq
  | succ k ih =>
    intro s cells hq hn
    cases cells with
    | nil => simp at hn
    | cons c cs =>
      obtain ⟨a, t⟩ := c
      obtain ⟨h1, h2, _, h4, h5, h6⟩ := step_next_cons exccls s a t cs hq
      have hk : k ≤ cs.length := by simpa using hn
      obtain ⟨i1, i2, i3, i4, i5⟩ := ih _ _ h2 hk
      simp only [List.replicate_succ, run_cons_fst, run_cons_snd, h1]
      refine ⟨by simpa using i1, by simpa using i2, by rw [i3, h4], by rw [i4, h5],
        by rw [i5, h6]⟩

theorem step_next_empty (exccls : Option PyObject) (s : System) (hh : s.iter.head = none) :
    (step exccls s Event.next).1 = s := by
  cases hd : s.iter.done <;> cases hx : s.iter.exception <;> cases exccls <;>
    simp [step, log_iter_next, hh, hd, hx]

theorem run_well_formed (exccls : Option PyObject) (evs : List Event) :
    ∀ (s : System) (cells : List (Nat × PyObject)), well_formed s.mem s.iter cells →
      calloc_fresh exccls s evs = true →
      ∃ cells1, well_formed (run exccls s evs).1.mem (run exccls s evs).1.iter cells1 := by
  induction evs with
  | nil => intro s cells hw _; exact ⟨cells, by simpa [run] using hw⟩
  | cons ev rest ih =>
    intro s cells hw hf
    obtain ⟨hq, hsize⟩ := hw
    simp only [calloc_fresh, Bool.and_eq_true] at hf
    rw [run_cons_fst]
    cases ev with
    | append entry t =>
      cases entry with
      | none =>
        rw [step_append_none] at hf ⊢
        exact ih s cells ⟨hq, hsize⟩ hf.2
      | some e =>
        have hfe : s.mem e = none := by simpa using hf.1
        obtain ⟨_, h2, h3, _⟩ := step_append_some exccls s cells e t hq hfe
        refine ih _ (cells ++ [(e, t)]) ⟨h2, ?_⟩ hf.2
        rw [h3, hsize, int_wrap_succ]
        simp
    | finish error =>
      obtain ⟨_, h2, h3, h4, h5, _⟩ := step_finish exccls s error
      refine ih _ cells ⟨?_, ?_⟩ hf.2
      · rw [h2]
        exact queue_shape_congr _ _ _ _ h3 h4 hq
      · rw [h5, hsize]
    | next =>
      cases cells with
      | nil =>
        rw [step_next_empty exccls s (queue_shape_head_nil _ _ hq)] at hf ⊢
        exact ih s [] ⟨hq, hsize⟩ hf.2
      | cons c cs =>
        obtain ⟨a, t⟩ := c
        obtain ⟨_, h2, h3, _⟩ := step_next_cons exccls s a t cs hq
        refine ih _ cs ⟨h2, ?_⟩ hf.2
        rw [h3, hsize]
        have : (((a, t) :: cs).length : Int) = (cs.length : Int) + 1 := by simp
        rw [this, int_wrap_pred]

/-! ## The queue claims -/

/-- C1 (FIFO delivery). From an empty queue (`head` and `tail` both `NULL`),
along every interleaving of `py_iter_append` calls with `log_iter_next` steps
that find the queue non-empty (and of anything else the worker does), where
`calloc` returns addresses that are not in use: every such `log_iter_next`
call returns, and the values returned are, in order, the first tuples
appended, one by one, none skipped and none twice. In particular N appends
followed by N calls return the N tuples in the order appended. -/
theorem fifo_delivery (exccls : Option PyObject) (s : System)
    (h_head : s.iter.head = none) (h_tail : s.iter.tail = none) :
    (∀ evs : List Event, calloc_fresh exccls s evs = true →
      next_on_nonempty exccls s evs = true →
      (run exccls s evs).2 =
        ((appended_tuples evs).take (evs.count Event.next)).map NextResult.returned ∧
      (run exccls s evs).2.length = evs.count Event.next) ∧
    (∀ apps : List (Nat × PyObject),
      calloc_fresh exccls s (apps.map (fun p => Event.append (some p.1) p.2)) = true →
      (run exccls s (apps.map (fun p => Event.append (some p.1) p.2) ++
          List.replicate apps.length Event.next)).2 =
        apps.map (fun p => NextResult.returned p.2)) := by
  have hq : queue_shape s.mem s.iter [] := queue_shape_empty _ _ h_head h_tail
  constructor
  · intro evs hf hn
    have h1 := run_fifo exccls evs s [] hq hf hn
    have h2 := run_fifo_count exccls evs s [] hq hf hn
    simp only [List.map_nil, List.nil_append] at h1
    simp only [List.length_nil, Nat.zero_add] at h2
    refine ⟨h1, ?_⟩
    rw [h1, List.length_map, List.length_take]
    omega
  · intro apps hf
    obtain ⟨a1, a2, _⟩ := run_appends exccls apps s [] hq hf
    obtain ⟨n1, _⟩ := run_nexts exccls apps.length _ _ a2 (by simp)
    rw [run_append_snd, a1, n1]
    simp

/-- The interleaving `example_events`, with an address reused after `free`,
delivers the three tuples in the order appended. -/
theorem fifo_delivery_witness :
    (run none example_system example_events).2 =
      [NextResult.returned (PyObject.object 1), NextResult.returned (PyObject.object 2),
       NextResult.returned (PyObject.object 3)] ∧
    (run none example_system example_events).2.length = 3 :=
  (fifo_delivery none example_system rfl rfl).1 example_events (by decide) (by decide)

/-- C8 (queue well-formedness). From the state `ra_iter_log` creates
(`head = tail = NULL`, `queue_size = 0`), after every interleaving of
`py_iter_append` calls, `log_iter_next` steps and the end of the worker, where
`calloc` returns addresses that are not in use, the queue is well formed:
`head` is `NULL` exactly when `tail` is; `tail`, when not `NULL`, is the last
node reachable from `head` and its `next` link is `NULL`; `queue_size` is the
number of nodes reachable from `head` (as a 32-bit `int`, so the number itself
below 2^31). An append to the queue when it is empty makes the new node both
`head` and `tail`, and a `log_iter_next` call that leaves `head` `NULL` leaves
`tail` `NULL`. -/
theorem queue_well_formed (exccls : Option PyObject) (s : System)
    (h_head : s.iter.head = none) (h_tail : s.iter.tail = none)
    (h_size : s.iter.queue_size = 0) (evs : List Event)
    (h_fresh : calloc_fresh exccls s evs = true) :
    ∃ cells : List (Nat × PyObject),
      well_formed (run exccls s evs).1.mem (run exccls s evs).1.iter cells ∧
      (cells.length < 2147483648 →
        (run exccls s evs).1.iter.queue_size = (cells.length : Int)) ∧
      (∀ (e : Nat) (t : PyObject), (run exccls s evs).1.iter.head = none →
        (run exccls s evs).1.mem e = none →
        (py_iter_append (some e) (run exccls s evs).1.mem (run exccls s evs).1.iter t).2.1.head
            = some e ∧
        (py_iter_append (some e) (run exccls s evs).1.mem (run exccls s evs).1.iter t).2.1.tail
            = some e) ∧
      (∀ (fuel : Nat) (mem1 : Memory) (iter1 : LogIteratorObject) (r : NextResult),
        log_iter_next exccls fuel (run exccls s evs).1.mem (run exccls s evs).1.iter =
          some (mem1, iter1, r) →
        iter1.head = none → iter1.tail = none) := by
  have hw : well_formed s.mem s.iter [] :=
    ⟨queue_shape_empty _ _ h_head h_tail, by simpa [int_wrap] using h_size⟩
  obtain ⟨cells, hq, hsize⟩ := run_well_formed exccls evs s [] hw h_fresh
  refine ⟨cells, ⟨hq, hsize⟩, ?_, ?_, ?_⟩
  · intro hlt
    rw [hsize]
    exact int_wrap_small _ hlt
  · intro e t hh hf
    have htl : (run exccls s evs).1.iter.tail = none := hq.2.1.mp hh
    simp [py_iter_append, hh, htl]
  · intro fuel mem1 iter1 r hcall hh
    cases fuel with
    | zero => simp [log_iter_next] at hcall
    | succ k =>
      cases cells with
      | nil =>
        have hh0 := queue_shape_head_nil _ _ hq
        have ht0 : (run exccls s evs).1.iter.tail = none := hq.2.1.mp hh0
        cases hd : (run exccls s evs).1.iter.done with
        | false =>
          rw [log_iter_next_waiting _ _ _ _ hh0 hd] at hcall
          cases hcall
        | true =>
          have : iter1 = (run exccls s evs).1.iter := by
            cases hx : (run exccls s evs).1.iter.exception <;> cases exccls <;>
              simp [log_iter_next, hh0, hd, hx] at hcall <;> exact hcall.2.1.symm
          rw [this]
          exact ht0
      | cons c cs =>
        obtain ⟨a, t⟩ := c
        obtain ⟨iter2, h1, h2, _⟩ := log_iter_next_shape exccls k _ _ a t cs hq
        rw [h1] at hcall
        have : iter2 = iter1 := by
          simp only [Option.some.injEq, Prod.mk.injEq] at hcall
          exact hcall.2.1
        subst this
        exact h2.2.1.mp hh

/-- After `example_events` the queue of `example_system` is well formed. -/
theorem queue_well_formed_witness :
    ∃ cells : List (Nat × PyObject),
      well_formed (run none example_system example_events).1.mem
        (run none example_system example_events).1.iter cells ∧
      (cells.length < 2147483648 →
        (run none example_system example_events).1.iter.queue_size = (cells.length : Int)) := by
  obtain ⟨cells, h1, h2, _⟩ :=
    queue_well_formed none example_system rfl rfl rfl example_events (by decide)
  exact ⟨cells, h1, h2⟩

/-! ## Draining the queue after the worker has finished -/

theorem run_nexts_done (cls : PyObject) (m : Nat) (s : System) (hh : s.iter.head = none)
    (hd : s.iter.done = true) :
    run (some cls) s (List.replicate m Event.next) =
      (s, List.replicate m (match s.iter.exception with
        | some exception => NextResult.raised cls exception
        | none => NextResult.StopIteration)) := by
  induction m with
  | zero => rfl
  | succ k ih =>
    have hs := step_next_done cls s hh hd
    apply Prod.ext
    · rw [List.replicate_succ, run_cons_fst, hs, ih]
    · rw [List.replicate_succ, run_cons_snd, hs, ih]
      rfl

theorem run_nexts_finished (cls : PyObject) (n : Nat) (s : System)
    (cells : List (Nat × PyObject)) (hq : queue_shape s.mem s.iter cells)
    (hd : s.iter.done = true) :
    (run (some cls) s (List.replicate n Event.next)).2 =
      (cells.take n).map (fun c => NextResult.returned c.2) ++
        List.replicate (n - cells.length) (match s.iter.exception with
          | some exception => NextResult.raised cls exception
          | none => NextResult.StopIteration) ∧
    (run (some cls) s (List.replicate n Event.next)).1.iter.done = true ∧
    (run (some cls) s (List.replicate n Event.next)).1.iter.exception = s.iter.exception ∧
    ∃ cells1, queue_shape (run (some cls) s (List.replicate n Event.next)).1.mem
      (run (some cls) s (List.replicate n Event.next)).1.iter cells1 := by
  by_cases hn : n ≤ cells.length
  · obtain ⟨h1, h2, h3, h4, _⟩ := run_nexts (some cls) n s cells hq hn
    refine ⟨?_, by rw [h3, hd], h4, _, h2⟩
    rw [h1, Nat.sub_eq_zero_of_le hn]
    simp
  · have hsplit : n = cells.length + (n - cells.length) := by omega
    obtain ⟨h1, h2, h3, h4, _⟩ := run_nexts (some cls) cells.length s cells hq (le_refl _)
    have hq0 : queue_shape (run (some cls) s (List.replicate cells.length Event.next)).1.mem
        (run (some cls) s (List.replicate cells.length Event.next)).1.iter [] := by
      simpa using h2
    have hh0 := queue_shape_head_nil _ _ hq0
    have hd0 : (run (some cls) s (List.replicate cells.length Event.next)).1.iter.done = true := by
      rw [h3, hd]
    have hfin := run_nexts_done cls (n - cells.length) _ hh0 hd0
    have hrep : List.replicate n Event.next =
        List.replicate cells.length Event.next ++ List.replicate (n - cells.length) Event.next := by
      rw [← List.replicate_add]
      congr 1
    refine ⟨?_, ?_, ?_, [], ?_⟩
    · rw [hrep, run_append_snd, hfin, h1, h4,
        List.take_of_length_le (show cells.length ≤ n by omega),
        List.take_of_length_le (le_refl cells.length)]
    · rw [hrep, run_append_fst, hfin]
      exact hd0
    · rw [hrep, run_append_fst, hfin]
      exact h4
    · rw [hrep, run_append_fst, hfin]
      exact hq0

theorem worker_events_nil (evs : List Event) (h : worker_events evs = []) :
    evs = List.replicate evs.length Event.next := by
  induction evs with
  | nil => rfl
  | cons ev rest ih =>
    cases ev with
    | next =>
      have : worker_events rest = [] := by simpa [worker_events] using h
      rw [List.length_cons, List.replicate_succ, ← ih this]
    | append entry t => simp [worker_events] at h
    | finish error => simp [worker_events] at h

theorem drain_running (cls : PyObject) (error : Option svn_error_t) (evs : List Event) :
    ∀ (s : System) (cells apps : List (Nat × PyObject)), queue_shape s.mem s.iter cells →
      s.iter.done = false → s.iter.exception = none →
      worker_events evs = worker_script apps error →
      calloc_fresh (some cls) s evs = true →
      (∃ j m, (run (some cls) s evs).2 =
          ((cells ++ apps).take j).map (fun c => NextResult.returned c.2) ++
            List.replicate m (terminal_outcome cls error) ∧
          (0 < m → j = (cells ++ apps).length)) ∧
      (run (some cls) s evs).1.iter.done = true ∧
      (match (run (some cls) s evs).1.iter.exception with
        | some exception => NextResult.raised cls exception
        | none => NextResult.StopIteration) = terminal_outcome cls error ∧
      ∃ cells1, queue_shape (run (some cls) s evs).1.mem (run (some cls) s evs).1.iter cells1 := by
  induction evs with
  | nil =>
    intro s cells apps _ _ _ hw _
    simp [worker_events, worker_script] at hw
  | cons ev rest ih =>
    intro s cells apps hq hd hx hw hf
    simp only [calloc_fresh, Bool.and_eq_true] at hf
    rw [run_cons_fst, run_cons_snd]
    cases ev with
    | next =>
      have hw1 : worker_events rest = worker_script apps error := by
        simpa [worker_events] using hw
      cases cells with
      | nil =>
        have hs := step_next_waiting (some cls) s (queue_shape_head_nil _ _ hq) hd
        rw [hs] at hf ⊢
        simpa using ih s [] apps hq hd hx hw1 hf.2
      | cons c cs =>
        obtain ⟨a, t⟩ := c
        obtain ⟨h1, h2, _, h4, h5, _⟩ := step_next_cons (some cls) s a t cs hq
        obtain ⟨⟨j, m, ho, hm⟩, i2, i3, i4⟩ :=
          ih _ cs apps h2 (by rw [h4, hd]) (by rw [h5, hx]) hw1 hf.2
        refine ⟨⟨j + 1, m, ?_, ?_⟩, i2, i3, i4⟩
        · rw [h1, ho]
          simp
        · intro hpos
          have := hm hpos
          simp only [List.cons_append, List.length_cons]
          omega
    | append entry t =>
      cases apps with
      | nil => simp [worker_events, worker_script] at hw
      | cons p apps1 =>
        have hw0 : Event.append entry t :: worker_events rest =
            Event.append (some p.1) p.2 :: worker_script apps1 error := by
          simpa [worker_events, worker_script] using hw
        have hev : entry = some p.1 ∧ t = p.2 := by
          have := (List.cons.inj hw0).1
          simpa using this
        have hw1 : worker_events rest = worker_script apps1 error := (List.cons.inj hw0).2
        obtain ⟨rfl, rfl⟩ := hev
        have hfe : s.mem p.1 = none := by simpa using hf.1
        obtain ⟨h1, h2, _, h4, h5, _⟩ := step_append_some (some cls) s cells p.1 p.2 hq hfe
        obtain ⟨⟨j, m, ho, hm⟩, i2, i3, i4⟩ :=
          ih _ (cells ++ [(p.1, p.2)]) apps1 h2 (by rw [h4, hd]) (by rw [h5, hx]) hw1 hf.2
        refine ⟨⟨j, m, ?_, ?_⟩, i2, i3, i4⟩
        · rw [h1, ho]
          simp
        · intro hpos
          have := hm hpos
          simpa using this
    | finish err =>
      cases apps with
      | cons p apps1 => simp [worker_events, worker_script] at hw
      | nil =>
        have hw0 : Event.finish err :: worker_events rest = [Event.finish error] := by
          simpa [worker_events, worker_script] using hw
        have herr : err = error := by
          have := (List.cons.inj hw0).1
          simpa using this
        have hw1 : worker_events rest = [] := (List.cons.inj hw0).2
        subst herr
        obtain ⟨h1, h2, h3, h4, _, h6, h7, _⟩ := step_finish (some cls) s err
        have hq1 : queue_shape (step (some cls) s (Event.finish err)).1.mem
            (step (some cls) s (Event.finish err)).1.iter cells := by
          rw [h2]
          exact queue_shape_congr _ _ _ _ h3 h4 hq
        have hterm : (match (step (some cls) s (Event.finish err)).1.iter.exception with
            | some exception => NextResult.raised cls exception
            | none => NextResult.StopIteration) = terminal_outcome cls err := by
          rw [h7]
          cases err <;> simp [terminal_outcome, hx]
        rw [worker_events_nil rest hw1]
        obtain ⟨f1, f2, f3, f4⟩ := run_nexts_finished cls rest.length _ cells hq1 h6
        refine ⟨?_, f2, ?_, f4⟩
        · by_cases hlen : rest.length ≤ cells.length
          · refine ⟨rest.length, 0, ?_, fun hpos => absurd hpos (by omega)⟩
            rw [h1, f1, Nat.sub_eq_zero_of_le hlen]
            simp
          · refine ⟨cells.length, rest.length - cells.length, ?_, fun _ => by simp⟩
            rw [h1, f1, hterm, List.take_of_length_le (by omega)]
            simp
        · rw [f3]
          exact hterm

theorem calloc_fresh_cons (exccls : Option PyObject) (s : System) (ev : Event)
    (rest : List Event) :
    calloc_fresh exccls s (ev :: rest) =
      (calloc_fresh exccls s [ev] && calloc_fresh exccls (step exccls s ev).1 rest) := by
  simp [calloc_fresh]

theorem calloc_fresh_append (exccls : Option PyObject) (xs ys : List Event) (s : System) :
    calloc_fresh exccls s (xs ++ ys) =
      (calloc_fresh exccls s xs && calloc_fresh exccls (run exccls s xs).1 ys) := by
  induction xs generalizing s with
  | nil => simp [calloc_fresh, run]
  | cons ev rest ih =>
    have h := ih (step exccls s ev).1
    rw [List.cons_append, run_cons_fst, calloc_fresh_cons, h,
      calloc_fresh_cons exccls s ev rest, Bool.and_assoc]

theorem run_script (cls : PyObject) (s : System) (apps : List (Nat × PyObject))
    (error : Option svn_error_t) (hq : queue_shape s.mem s.iter [])
    (hx : s.iter.exception = none)
    (hf : calloc_fresh (some cls) s (worker_script apps error) = true) :
    (run (some cls) s (worker_script apps error)).2 = [] ∧
    queue_shape (run (some cls) s (worker_script apps error)).1.mem
      (run (some cls) s (worker_script apps error)).1.iter apps ∧
    (run (some cls) s (worker_script apps error)).1.iter.done = true ∧
    (match (run (some cls) s (worker_script apps error)).1.iter.exception with
      | some exception => NextResult.raised cls exception
      | none => NextResult.StopIteration) = terminal_outcome cls error := by
  unfold worker_script at hf ⊢
  rw [calloc_fresh_append, Bool.and_eq_true] at hf
  obtain ⟨a1, a2, _, a4, _⟩ := run_appends (some cls) apps s [] hq hf.1
  obtain ⟨h1, h2, h3, h4, _, h6, h7, _⟩ :=
    step_finish (some cls) (run (some cls) s
      (apps.map (fun p => Event.append (some p.1) p.2))).1 error
  have hfst : (run (some cls) s
      (apps.map (fun p => Event.append (some p.1) p.2) ++ [Event.finish error])).1 =
      (step (some cls) (run (some cls) s
        (apps.map (fun p => Event.append (some p.1) p.2))).1 (Event.finish error)).1 := by
    rw [run_append_fst, run_cons_fst]
    rfl
  refine ⟨?_, ?_, ?_, ?_⟩
  · rw [run_append_snd, a1, run_cons_snd, h1]
    rfl
  · rw [hfst, h2]
    exact queue_shape_congr _ _ _ _ h3 h4 (by simpa using a2)
  · rw [hfst, h6]
  · rw [hfst, h7, a4, hx]
    cases error <;> rfl

/-- C2 (drain before the terminal outcome). The worker appends `k` tuples and
then finishes, the native call having returned `error`; `calloc` returns
addresses that are not in use and the lookup of the exception class succeeds.
(1) If the consumer calls `log_iter_next` `k + 1` times afterwards, the first
`k` calls return the `k` tuples in order and the last one reports the terminal
outcome: the deferred error if the native call failed, `StopIteration` if not.
(2) Under every interleaving of the two threads, what the ended calls of
`log_iter_next` reported is some first `j` of the tuples, in order, followed
by the terminal outcome `m` times, and the terminal outcome is reported only
when all `k` tuples have been returned. (3) Every step of the consumer made
once the worker has finished ends a call. -/
theorem drain_before_terminal (cls : PyObject) (s : System)
    (h_head : s.iter.head = none) (h_tail : s.iter.tail = none)
    (h_done : s.iter.done = false) (h_exception : s.iter.exception = none)
    (apps : List (Nat × PyObject)) (error : Option svn_error_t) :
    (calloc_fresh (some cls) s (worker_script apps error) = true →
      (run (some cls) s
          (worker_script apps error ++ List.replicate (apps.length + 1) Event.next)).2 =
        apps.map (fun p => NextResult.returned p.2) ++ [terminal_outcome cls error]) ∧
    (∀ evs : List Event, worker_events evs = worker_script apps error →
      calloc_fresh (some cls) s evs = true →
      ∃ j m, (run (some cls) s evs).2 =
          (apps.take j).map (fun p => NextResult.returned p.2) ++
            List.replicate m (terminal_outcome cls error) ∧
        (0 < m → j = apps.length)) ∧
    (∀ pre post : List Event, worker_events pre = worker_script apps error →
      worker_events post = [] → calloc_fresh (some cls) s pre = true →
      (run (some cls) (run (some cls) s pre).1 post).2.length = post.length) := by
  have hq : queue_shape s.mem s.iter [] := queue_shape_empty _ _ h_head h_tail
  refine ⟨?_, ?_, ?_⟩
  · intro hf
    obtain ⟨r1, r2, r3, r4⟩ := run_script cls s apps error hq h_exception hf
    obtain ⟨f1, _⟩ := run_nexts_finished cls (apps.length + 1) _ apps r2 r3
    rw [run_append_snd, r1, f1, r4, List.take_of_length_le (by omega)]
    simp
  · intro evs hw hf
    obtain ⟨⟨j, m, ho, hm⟩, _⟩ :=
      drain_running cls error evs s [] apps hq h_done h_exception hw hf
    exact ⟨j, m, by simpa using ho, by simpa using hm⟩
  · intro pre post hw hp hf
    obtain ⟨_, d2, _, cells1, d4⟩ :=
      drain_running cls error pre s [] apps hq h_done h_exception hw hf
    rw [worker_events_nil post hp]
    obtain ⟨f1, _⟩ := run_nexts_finished cls post.length _ cells1 d4 d2
    rw [f1]
    simp only [List.length_append, List.length_map, List.length_take, List.length_replicate]
    omega

/-- A worker that appends two tuples and fails with error 42: the third call
of the consumer, and no earlier one, raises the error. -/
theorem drain_before_terminal_witness :
    (run (some (PyObject.object 99)) example_system
        (worker_script [(100, PyObject.object 1), (200, PyObject.object 2)] (some 42) ++
          List.replicate 3 Event.next)).2 =
      [NextResult.returned (PyObject.object 1), NextResult.returned (PyObject.object 2),
       NextResult.raised (PyObject.object 99) (PyObject.SubversionException 42)] :=
  (drain_before_terminal (PyObject.object 99) example_system rfl rfl rfl rfl
    [(100, PyObject.object 1), (200, PyObject.object 2)] (some 42)).1 (by decide)

/-! ## The deferred error -/

/-- C3, as stated, fails: the worker of `example_system` fails with error 42,
and both the first and the second call of `log_iter_next` raise the deferred
error. -/
theorem deferred_error_raised_twice :
    (run (some (PyObject.object 99)) example_system
        [Event.finish (some 42), Event.next, Event.next]).2 =
      [NextResult.raised (PyObject.object 99) (PyObject.SubversionException 42),
       NextResult.raised (PyObject.object 99) (PyObject.SubversionException 42)] := by
  decide

/-- C3, amended. When the worker has finished with a failure and the queue is
empty, every call of `log_iter_next`, the first and each later one, fails with
the deferred error and leaves the iterator as it was (the lookup of the
exception class succeeding). -/
theorem deferred_error_raised_each_call (cls : PyObject) (s : System) (exception : PyObject)
    (h_head : s.iter.head = none) (h_done : s.iter.done = true)
    (h_exception : s.iter.exception = some exception) (n : Nat) :
    (∀ fuel, log_iter_next (some cls) (fuel + 1) s.mem s.iter =
      some (s.mem, s.iter, NextResult.raised cls exception)) ∧
    run (some cls) s (List.replicate n Event.next) =
      (s, List.replicate n (NextResult.raised cls exception)) := by
  constructor
  · intro fuel
    simp [log_iter_next, h_head, h_done, h_exception]
  · have := run_nexts_done cls n s h_head h_done
    rw [h_exception] at this
    exact this

/-- Three calls in a row on a failed, drained iterator raise the error three
times. -/
theorem deferred_error_raised_each_call_witness :
    (run (some (PyObject.object 99))
        (run (some (PyObject.object 99)) example_system [Event.finish (some 42)]).1
        (List.replicate 3 Event.next)).2 =
      List.replicate 3
        (NextResult.raised (PyObject.object 99) (PyObject.SubversionException 42)) := by
  have h := (deferred_error_raised_each_call (PyObject.object 99)
    (run (some (PyObject.object 99)) example_system [Event.finish (some 42)]).1
    (PyObject.SubversionException 42) rfl rfl rfl 3).2
  rw [h]

/-! ## The request -/

theorem ra_iter_log_busy (env : iter_log_env) (self : Nat) (ra : RemoteAccessObject)
    (a : iter_log_args) (h : ra.busy = true) :
    ra_iter_log env self ra (some a) =
      { ra := ra, ret := iter_log_return.NULL PyErr.busy, thread := none } := by
  simp [ra_iter_log, ra_check_busy, h]

theorem ra_iter_log_idle (env : iter_log_env) (self : Nat) (ra : RemoteAccessObject)
    (a : iter_log_args) (pool : Nat) (apr_paths : Option (List String))
    (h_idle : ra.busy = false) (h_pool : env.Pool = some pool)
    (h_paths : (if a.paths = PyArg.None then some (some [""])
      else path_list_to_apr_array a.paths) = some apr_paths) :
    ra_iter_log env self ra (some a) =
      match (if legacy_restrictions env.SVN_VER_MAJOR env.SVN_VER_MINOR then
              legacy_checks env (a.revprops.getD PyArg.None)
                (a.include_merged_revisions.getD false) else none) with
      | some r => { ra := { ra with busy := true }, ret := r, thread := none }
      | none =>
        match string_list_to_apr_array (a.revprops.getD PyArg.None) with
        | none => { ra := { ra with busy := true },
                    ret := iter_log_return.NULL PyErr.string_list, thread := none }
        | some apr_revprops =>
          match env.PyObject_New with
          | none => { ra := { ra with busy := true }, ret := iter_log_return.undefined,
                      thread := none }
          | some object =>
            { ra := { ra with busy := true },
              ret := iter_log_return.iterator
                { object with
                  ra := self, start := a.start, exception := none,
                  discover_changed_paths := a.discover_changed_paths.getD false,
                  end_ := a.end_, limit := a.limit.getD 0, apr_paths := apr_paths,
                  pool := pool,
                  include_merged_revisions := a.include_merged_revisions.getD false,
                  apr_revprops := apr_revprops, done := false, queue_size := 0,
                  head := none, tail := none },
              thread := some
                { object with
                  ra := self, start := a.start, exception := none,
                  discover_changed_paths := a.discover_changed_paths.getD false,
                  end_ := a.end_, limit := a.limit.getD 0, apr_paths := apr_paths,
                  pool := pool,
                  include_merged_revisions := a.include_merged_revisions.getD false,
                  apr_revprops := apr_revprops, done := false, queue_size := 0,
                  head := none, tail := none } } := by
  simp only [ra_iter_log, ra_check_busy, h_idle, h_pool, h_paths]
  rfl

theorem ra_iter_log_connection (env : iter_log_env) (self : Nat) (ra : RemoteAccessObject)
    (a : iter_log_args) : (ra_iter_log env self ra (some a)).ra = { ra with busy := true } := by
  cases hb : ra.busy with
  | true =>
    rw [ra_iter_log_busy env self ra a hb]
    cases ra
    simp at hb
    simp [hb]
  | false =>
    simp only [ra_iter_log, ra_check_busy, hb]
    simp only [Bool.false_eq_true, if_false]
    repeat' split
    all_goals rfl

theorem check_revprops_not_iterator (env : iter_log_env) (items : List (Option String))
    (r : iter_log_return) (ret : LogIteratorObject) (h : check_revprops env items = some r) :
    r ≠ iter_log_return.iterator ret := by
  induction items with
  | nil => simp [check_revprops] at h
  | cons x rest ih =>
    cases x with
    | none =>
      simp [check_revprops] at h
      rw [← h]
      simp
    | some n =>
      simp only [check_revprops] at h
      split at h
      · simp at h
        rw [← h]
        simp
      · exact ih h

theorem legacy_checks_not_iterator (env : iter_log_env) (revprops : PyArg) (merged : Bool)
    (r : iter_log_return) (ret : LogIteratorObject)
    (h : legacy_checks env revprops merged = some r) : r ≠ iter_log_return.iterator ret := by
  cases revprops with
  | None => simp [legacy_checks] at h; rw [← h]; simp
  | other => simp [legacy_checks] at h; rw [← h]; simp
  | list items =>
    simp only [legacy_checks] at h
    split at h
    · rename_i r1 h1
      simp at h
      rw [← h]
      exact check_revprops_not_iterator env items r1 ret h1
    · split at h
      · simp at h; rw [← h]; simp
      · simp at h
  | sequence items =>
    simp only [legacy_checks] at h
    split at h
    · rename_i r1 h1
      simp at h
      rw [← h]
      exact check_revprops_not_iterator env items r1 ret h1
    · split at h
      · simp at h; rw [← h]; simp
      · simp at h

theorem ra_iter_log_thread (env : iter_log_env) (self : Nat) (ra : RemoteAccessObject)
    (args : Option iter_log_args) (ret : LogIteratorObject) :
    (ra_iter_log env self ra args).thread = some ret ↔
      (ra_iter_log env self ra args).ret = iter_log_return.iterator ret := by
  cases args with
  | none => simp [ra_iter_log]
  | some a =>
    simp only [ra_iter_log]
    split
    · simp
    · split
      · simp
      · split
        · simp
        · split
          · rename_i r hr
            have hne : r ≠ iter_log_return.iterator ret := by
              split at hr
              · exact legacy_checks_not_iterator _ _ _ _ _ hr
              · cases hr
            simp [hne]
          · split
            · simp
            · split
              · simp
              · simp

theorem step_ra (exccls : Option PyObject) (s : System) (ev : Event)
    (h : ∀ error, ev ≠ Event.finish error) : (step exccls s ev).1.ra = s.ra := by
  cases ev with
  | append entry t =>
    simp only [step]
  | finish error => exact absurd rfl (h error)
  | next =>
    simp only [step]
    rcases log_iter_next exccls 1 s.mem s.iter with _ | ⟨mem1, iter1, r⟩ <;> rfl

theorem run_ra (exccls : Option PyObject) (evs : List Event) :
    ∀ s : System, (∀ error, Event.finish error ∉ evs) → (run exccls s evs).1.ra = s.ra := by
  induction evs with
  | nil => intro s _; rfl
  | cons ev rest ih =>
    intro s h
    rw [run_cons_fst, ih _ (fun error hm => h error (List.mem_cons_of_mem _ hm))]
    exact step_ra exccls s ev (fun error heq => h error (heq ▸ List.mem_cons_self _ _))

theorem ra_iter_log_ok_idle (env : iter_log_env) (self : Nat) (ra : RemoteAccessObject)
    (args : Option iter_log_args) (ret : LogIteratorObject)
    (h : (ra_iter_log env self ra args).ret = iter_log_return.iterator ret) :
    (∃ a, args = some a) ∧ ra.busy = false := by
  cases args with
  | none => simp [ra_iter_log] at h
  | some a =>
    refine ⟨⟨a, rfl⟩, ?_⟩
    cases hb : ra.busy with
    | false => rfl
    | true =>
      rw [ra_iter_log_busy env self ra a hb] at h
      simp at h

theorem py_iter_log_finished (major minor : Nat) (native : native_call → native_run)
    (ra : RemoteAccessObject) (mem : Memory) (iter : LogIteratorObject) :
    (py_iter_log major minor native ra mem iter).1 = { ra with busy := false } ∧
    (py_iter_log major minor native ra mem iter).2.2.done = true := by
  simp only [py_iter_log]
  rcases svn_ra_get_log_stub _ _ _ mem iter with ⟨mem1, iter1, error⟩
  cases error <;> simp [py_iter_log_finish]

/-- C4 (mutual exclusion on the connection). After a successful `ra_iter_log`
call the connection is busy. Until the worker of that call finishes (whatever
the worker appends and the consumer takes meanwhile), every further
`ra_iter_log` call on the connection fails with the connection-busy error,
returns no iterator and starts no thread. Once the worker `py_iter_log` has
finished, the iterator is done, the connection is not busy, and it is the
connection as it was before the first call: the same request succeeds again
and leaves the connection busy again. -/
theorem connection_mutual_exclusion (env : iter_log_env) (self : Nat)
    (ra : RemoteAccessObject) (args : Option iter_log_args) (ret : LogIteratorObject)
    (h_ok : (ra_iter_log env self ra args).ret = iter_log_return.iterator ret) :
    (ra_iter_log env self ra args).ra.busy = true ∧
    (ra_iter_log env self ra args).thread = some ret ∧
    (∀ (exccls : Option PyObject) (mem : Memory) (evs : List Event),
      (∀ error, Event.finish error ∉ evs) →
      ∀ (env2 : iter_log_env) (a2 : iter_log_args),
        ra_iter_log env2 self
            (run exccls { mem := mem, ra := (ra_iter_log env self ra args).ra, iter := ret }
              evs).1.ra (some a2) =
          { ra := (ra_iter_log env self ra args).ra,
            ret := iter_log_return.NULL PyErr.busy, thread := none }) ∧
    (∀ (native : native_call → native_run) (mem : Memory),
      (py_iter_log env.SVN_VER_MAJOR env.SVN_VER_MINOR native
          (ra_iter_log env self ra args).ra mem ret).2.2.done = true ∧
      (py_iter_log env.SVN_VER_MAJOR env.SVN_VER_MINOR native
          (ra_iter_log env self ra args).ra mem ret).1.busy = false ∧
      (py_iter_log env.SVN_VER_MAJOR env.SVN_VER_MINOR native
          (ra_iter_log env self ra args).ra mem ret).1 = ra ∧
      (ra_iter_log env self
          (py_iter_log env.SVN_VER_MAJOR env.SVN_VER_MINOR native
            (ra_iter_log env self ra args).ra mem ret).1 args).ret =
        iter_log_return.iterator ret ∧
      (ra_iter_log env self
          (py_iter_log env.SVN_VER_MAJOR env.SVN_VER_MINOR native
            (ra_iter_log env self ra args).ra mem ret).1 args).ra.busy = true) := by
  obtain ⟨⟨a, rfl⟩, h_idle⟩ := ra_iter_log_ok_idle env self ra args ret h_ok
  have hra := ra_iter_log_connection env self ra a
  have hbusy : (ra_iter_log env self ra (some a)).ra.busy = true := by rw [hra]
  refine ⟨hbusy, (ra_iter_log_thread env self ra (some a) ret).mpr h_ok, ?_, ?_⟩
  · intro exccls mem evs hfin env2 a2
    rw [run_ra exccls evs _ hfin]
    exact ra_iter_log_busy env2 self _ a2 hbusy
  · intro native mem
    obtain ⟨p1, p2⟩ := py_iter_log_finished env.SVN_VER_MAJOR env.SVN_VER_MINOR native
      (ra_iter_log env self ra (some a)).ra mem ret
    have hback : (py_iter_log env.SVN_VER_MAJOR env.SVN_VER_MINOR native
        (ra_iter_log env self ra (some a)).ra mem ret).1 = ra := by
      rw [p1, hra]
      cases ra
      simp at h_idle
      simp [h_idle]
    refine ⟨p2, ?_, hback, ?_, ?_⟩
    · rw [hback, h_idle]
    · rw [hback]
      exact h_ok
    · rw [hback]
      exact hbusy

/-- On an idle connection `iter_log(None, 0, 10)` succeeds and marks the
connection busy; a second request on it fails with the busy error. -/
theorem connection_mutual_exclusion_witness :
    (ra_iter_log modern_env 7 idle_connection (some example_args)).ra.busy = true ∧
    ra_iter_log modern_env 7
        (ra_iter_log modern_env 7 idle_connection (some example_args)).ra (some legacy_args) =
      { ra := (ra_iter_log modern_env 7 idle_connection (some example_args)).ra,
        ret := iter_log_return.NULL PyErr.busy, thread := none } := by
  have h := connection_mutual_exclusion modern_env 7 idle_connection (some example_args)
    { uninitialised_object with
      ra := 7, start := 0, exception := none, discover_changed_paths := false, end_ := 10,
      limit := 0, apr_paths := some [""], pool := 1, include_merged_revisions := false,
      apr_revprops := none, done := false, queue_size := 0, head := none, tail := none }
    (by decide)
  exact ⟨h.1, h.2.2.1 none (fun _ => none) [] (by simp) modern_env legacy_args⟩

/-! ## The restrictions of the legacy variant -/

theorem all_strings_some (names : List String) : all_strings (names.map some) = some names := by
  induction names with
  | nil => rfl
  | cons n rest ih => simp [all_strings, ih]

theorem check_revprops_legacy_names (env : iter_log_env) (names : List String)
    (h : ∀ n ∈ names, n = env.SVN_PROP_REVISION_LOG ∨ n = env.SVN_PROP_REVISION_AUTHOR ∨
      n = env.SVN_PROP_REVISION_DATE) :
    check_revprops env (names.map some) = none := by
  induction names with
  | nil => rfl
  | cons n rest ih =>
    have hn := h n (List.mem_cons_self _ _)
    have hcond : ¬ (env.SVN_PROP_REVISION_LOG ≠ n ∧ env.SVN_PROP_REVISION_AUTHOR ≠ n ∧
        env.SVN_PROP_REVISION_DATE ≠ n) := by
      rintro ⟨h1, h2, h3⟩
      rcases hn with h | h | h
      · exact h1 h.symm
      · exact h2 h.symm
      · exact h3 h.symm
    simp only [List.map_cons, check_revprops, hcond, if_false]
    exact ih (fun m hm => h m (List.mem_cons_of_mem _ hm))

theorem check_revprops_custom (env : iter_log_env) (names : List String)
    (h : ∃ n ∈ names, n ≠ env.SVN_PROP_REVISION_LOG ∧ n ≠ env.SVN_PROP_REVISION_AUTHOR ∧
      n ≠ env.SVN_PROP_REVISION_DATE) :
    check_revprops env (names.map some) =
      some (iter_log_return.NULL
        (PyErr.NotImplementedError "fetching custom revision properties not supported")) := by
  induction names with
  | nil =>
    obtain ⟨n, hn, _⟩ := h
    cases hn
  | cons n rest ih =>
    by_cases hcond : env.SVN_PROP_REVISION_LOG ≠ n ∧ env.SVN_PROP_REVISION_AUTHOR ≠ n ∧
        env.SVN_PROP_REVISION_DATE ≠ n
    · simp only [List.map_cons, check_revprops]
      rw [if_pos hcond]
    · simp only [List.map_cons, check_revprops]
      rw [if_neg hcond]
      apply ih
      obtain ⟨m, hm, h1, h2, h3⟩ := h
      rcases List.mem_cons.mp hm with rfl | hm
      · exact absurd ⟨fun e => h1 e.symm, fun e => h2 e.symm, fun e => h3 e.symm⟩ hcond
      · exact ⟨m, hm, h1, h2, h3⟩

/-- C5 (legacy protocol restriction). In a build where the restrictions are
compiled (`SVN_VER_MAJOR <= 1 && SVN_VER_MINOR < 5`), for a request on a
connection that is not busy, with paths that are `None` or convertible and
`revprops` either `None` or a list of strings, the allocations succeeding:
`ra_iter_log` fails with `NotImplementedError` exactly when `revprops` is
`None`, or the list has a name other than the three legacy names, or
`include_merged_revisions` is true; otherwise it returns an iterator and
starts the worker on it. -/
theorem legacy_restriction (env : iter_log_env) (self : Nat) (ra : RemoteAccessObject)
    (a : iter_log_args) (pool : Nat) (object : LogIteratorObject)
    (h_legacy : legacy_restrictions env.SVN_VER_MAJOR env.SVN_VER_MINOR = true)
    (h_idle : ra.busy = false) (h_pool : env.Pool = some pool)
    (h_object : env.PyObject_New = some object)
    (h_paths : a.paths = PyArg.None ∨ (path_list_to_apr_array a.paths).isSome = true)
    (h_revprops : a.revprops.getD PyArg.None = PyArg.None ∨
      ∃ names : List String, a.revprops.getD PyArg.None = PyArg.list (names.map some)) :
    (is_not_implemented (ra_iter_log env self ra (some a)).ret = true ↔
      unsupported_on_legacy env a) ∧
    (¬ unsupported_on_legacy env a →
      ∃ ret, (ra_iter_log env self ra (some a)).ret = iter_log_return.iterator ret ∧
        (ra_iter_log env self ra (some a)).thread = some ret) := by
  obtain ⟨apr_paths, hp⟩ : ∃ apr_paths, (if a.paths = PyArg.None then some (some [""])
      else path_list_to_apr_array a.paths) = some apr_paths := by
    rcases h_paths with h | h
    · exact ⟨some [""], by simp [h]⟩
    · by_cases hn : a.paths = PyArg.None
      · exact ⟨some [""], by simp [hn]⟩
      · obtain ⟨x, hx⟩ := Option.isSome_iff_exists.mp h
        exact ⟨x, by simp [hn, hx]⟩
  rw [ra_iter_log_idle env self ra a pool apr_paths h_idle h_pool hp]
  simp only [h_legacy, if_true]
  rcases h_revprops with hnone | ⟨names, hlist⟩
  · have hu : unsupported_on_legacy env a := Or.inl hnone
    simp [hnone, legacy_checks, is_not_implemented, hu]
  · by_cases hbad : ∃ n ∈ names, n ≠ env.SVN_PROP_REVISION_LOG ∧
        n ≠ env.SVN_PROP_REVISION_AUTHOR ∧ n ≠ env.SVN_PROP_REVISION_DATE
    · have hu : unsupported_on_legacy env a := by
        obtain ⟨n, hn, h1, h2, h3⟩ := hbad
        exact Or.inr (Or.inl ⟨names.map some, n, hlist, List.mem_map_of_mem some hn, h1, h2, h3⟩)
      simp [hlist, legacy_checks, check_revprops_custom env names hbad, is_not_implemented, hu]
    · have hgood : ∀ n ∈ names, n = env.SVN_PROP_REVISION_LOG ∨
          n = env.SVN_PROP_REVISION_AUTHOR ∨ n = env.SVN_PROP_REVISION_DATE := by
        intro n hn
        by_contra hc
        push_neg at hc
        exact hbad ⟨n, hn, hc⟩
      cases hm : a.include_merged_revisions.getD false with
      | true =>
        have hu : unsupported_on_legacy env a := Or.inr (Or.inr hm)
        simp [hlist, legacy_checks, check_revprops_legacy_names env names hgood,
          is_not_implemented, hu]
      | false =>
        have hnu : ¬ unsupported_on_legacy env a := by
          rintro (h | ⟨items, n, hi, hmem, h1, h2, h3⟩ | h)
          · rw [hlist] at h
            cases h
          · rw [hlist] at hi
            have hitems : names.map some = items := by simpa using hi
            rw [← hitems] at hmem
            have hn : n ∈ names := by simpa using hmem
            exact hbad ⟨n, hn, h1, h2, h3⟩
          · rw [hm] at h
            cases h
        simp [hlist, legacy_checks, check_revprops_legacy_names env names hgood,
          string_list_to_apr_array, all_strings_some, h_object, is_not_implemented, hnu]

/-- On Subversion 1.4, `iter_log(None, 0, 10, revprops=["svn:log"])` is not
unsupported and returns an iterator. -/
theorem legacy_restriction_witness :
    ¬ is_not_implemented (ra_iter_log legacy_env 7 idle_connection (some legacy_args)).ret
      = true ∧
    ∃ ret, (ra_iter_log legacy_env 7 idle_connection (some legacy_args)).ret =
        iter_log_return.iterator ret ∧
      (ra_iter_log legacy_env 7 idle_connection (some legacy_args)).thread = some ret := by
  have h := legacy_restriction legacy_env 7 idle_connection legacy_args 1 uninitialised_object
    (by decide) rfl rfl rfl (Or.inl rfl) (Or.inr ⟨["svn:log"], rfl⟩)
  have hnu : ¬ unsupported_on_legacy legacy_env legacy_args := by
    intro hu
    have := h.1.mpr hu
    revert this
    decide
  exact ⟨fun hc => hnu (h.1.mp hc), h.2 hnu⟩

/-! ## The busy flag after a failed request -/

/-- C6 fails on the code. On Subversion 1.4 and an idle connection the
request `iter_log(None, 0, 10)` fails with `NotImplementedError` (all revision
properties); no thread is started, but the connection is left busy, and the
valid request that follows fails with the busy error, although it succeeds on
the connection as it was before. -/
theorem failed_request_leaves_connection_busy :
    idle_connection.busy = false ∧
    (ra_iter_log legacy_env 7 idle_connection (some example_args)).ret =
      iter_log_return.NULL
        (PyErr.NotImplementedError "fetching all revision properties not supported") ∧
    (ra_iter_log legacy_env 7 idle_connection (some example_args)).thread = none ∧
    (ra_iter_log legacy_env 7 idle_connection (some example_args)).ra.busy = true ∧
    (ra_iter_log legacy_env 7
        (ra_iter_log legacy_env 7 idle_connection (some example_args)).ra
        (some legacy_args)).ret = iter_log_return.NULL PyErr.busy ∧
    (∃ ret, (ra_iter_log legacy_env 7 idle_connection (some legacy_args)).ret =
      iter_log_return.iterator ret) :=
  ⟨rfl, by decide, by decide, by decide, by decide, _, rfl⟩

/-- C7 (root-path normalization). The request with `paths = None` has the
outcome of the same request with `paths = [""]`; when it succeeds, the iterator
holds the one-element array `[""]`, which is the `paths` argument of the native
call `py_iter_log` makes; and the workers started by the two requests do the
same against the same native library. -/
theorem root_path_normalization (env : iter_log_env) (self : Nat) (ra : RemoteAccessObject)
    (a : iter_log_args) :
    ra_iter_log env self ra (some { a with paths := PyArg.None }) =
      ra_iter_log env self ra (some { a with paths := PyArg.list [some ""] }) ∧
    (∀ ret, (ra_iter_log env self ra (some { a with paths := PyArg.None })).thread = some ret →
      ret.apr_paths = some [""] ∧
      ∀ (major minor : Nat) (ra1 : RemoteAccessObject),
        (py_iter_log_call major minor ra1 ret).paths = some [""]) ∧
    (∀ ret1 ret2,
      (ra_iter_log env self ra (some { a with paths := PyArg.None })).thread = some ret1 →
      (ra_iter_log env self ra (some { a with paths := PyArg.list [some ""] })).thread =
        some ret2 →
      ∀ (major minor : Nat) (native : native_call → native_run) (ra1 : RemoteAccessObject)
        (mem : Memory),
        py_iter_log major minor native ra1 mem ret1 =
          py_iter_log major minor native ra1 mem ret2) := by
  have heq : ra_iter_log env self ra (some { a with paths := PyArg.None }) =
      ra_iter_log env self ra (some { a with paths := PyArg.list [some ""] }) := by
    simp [ra_iter_log, path_list_to_apr_array, all_strings]
  refine ⟨heq, ?_, ?_⟩
  · intro ret hret
    have hp : ret.apr_paths = some [""] := by
      simp only [ra_iter_log] at hret
      split at hret
      · simp at hret
      · split at hret
        · simp at hret
        · simp only [if_true] at hret
          split at hret
          · simp at hret
          · split at hret
            · simp at hret
            · split at hret
              · simp at hret
              · simp only [Option.some.injEq] at hret
                rw [← hret]
    refine ⟨hp, ?_⟩
    intro major minor ra1
    unfold py_iter_log_call
    split <;> simp [native_call.paths, hp]
  · intro ret1 ret2 h1 h2 major minor native ra1 mem
    rw [heq, h2] at h1
    cases h1
    rfl

/-- The request `iter_log(None, 0, 10)` on Subversion 1.6 hands the native call
the single root path. -/
theorem root_path_normalization_witness :
    ∃ ret, (ra_iter_log modern_env 7 idle_connection (some example_args)).thread = some ret ∧
      (py_iter_log_call 1 6 idle_connection ret).paths = some [""] := by
  have h := (root_path_normalization modern_env 7 idle_connection example_args).2.1
  exact ⟨_, rfl, (h _ rfl).2 1 6 idle_connection⟩

/-- C9 fails on the code. The request `iter_log(None, 0, 10)` leaves
`strict_node_history` at its default `true`; `ra_iter_log` does not store it
in the iterator, whose field keeps what the new object held, here `false`,
and that is what `py_iter_log` passes to the native call. -/
theorem strict_node_history_not_passed :
    requested_strict_node_history example_args = true ∧
    ∃ ret, (ra_iter_log modern_env 7 idle_connection (some example_args)).thread = some ret ∧
      (py_iter_log_call 1 6 (ra_iter_log modern_env 7 idle_connection (some example_args)).ra
        ret).strict_node_history = false :=
  ⟨rfl, _, rfl, rfl⟩

/-- What the native call does receive after a successful request: the
caller's `start`, `end`, `limit`, `discover_changed_paths` and
`include_merged_revisions`, and for `strict_node_history` the content of the
new object's memory. -/
theorem native_call_arguments (env : iter_log_env) (self : Nat) (ra ra1 : RemoteAccessObject)
    (a : iter_log_args) (ret : LogIteratorObject)
    (h : (ra_iter_log env self ra (some a)).ret = iter_log_return.iterator ret) :
    ∃ object, env.PyObject_New = some object ∧
      py_iter_log_call env.SVN_VER_MAJOR env.SVN_VER_MINOR ra1 ret =
        if modern_fetch env.SVN_VER_MAJOR env.SVN_VER_MINOR then
          native_call.svn_ra_get_log2 ra1.ra ret.apr_paths a.start a.end_ (a.limit.getD 0)
            (a.discover_changed_paths.getD false) object.strict_node_history
            (a.include_merged_revisions.getD false) ret.apr_revprops ret.pool
        else
          native_call.svn_ra_get_log ra1.ra ret.apr_paths a.start a.end_ (a.limit.getD 0)
            (a.discover_changed_paths.getD false) object.strict_node_history ret.pool := by
  simp only [ra_iter_log] at h
  split at h
  · simp at h
  · split at h
    · simp at h
    · split at h
      · simp at h
      · split at h
        · rename_i r hr
          have hne : r ≠ iter_log_return.iterator ret := by
            split at hr
            · exact legacy_checks_not_iterator _ _ _ _ _ hr
            · cases hr
          exact absurd h hne
        · split at h
          · simp at h
          · split at h
            · simp at h
            · rename_i object hobj
              refine ⟨object, hobj, ?_⟩
              simp only [iter_log_return.iterator.injEq] at h
              rw [← h]
              rfl

/-! ## The two version conditions -/

/-- Outside major version 1 the two conditions can both be false. With the
version macros set to 2 and 0, which no Subversion release has, the
restrictions are not compiled while the legacy receiver and `svn_ra_get_log`
are. -/
theorem legacy_fetch_without_restrictions :
    legacy_restrictions 2 0 = false ∧ modern_fetch 2 0 = false ∧
    unsupported_on_legacy next_major_env merged_args ∧
    ∃ ret, (ra_iter_log next_major_env 7 idle_connection (some merged_args)).ret =
        iter_log_return.iterator ret ∧
      (py_iter_log_call 2 0 idle_connection ret).is_legacy = true :=
  ⟨rfl, rfl, Or.inl rfl, _, rfl, rfl⟩

theorem receivers_agree : py_iter_log_cb = py_iter_log_entry_cb := by
  funext x mem iter
  unfold py_iter_log_cb py_iter_log_entry_cb
  rfl

theorem stub_as_events (exccls : Option PyObject) (result : Option svn_error_t)
    (reports : List receiver_env) :
    ∀ (s : System) (cells : List (Nat × PyObject)), queue_shape s.mem s.iter cells →
      calloc_fresh exccls s (stub_script result reports).1 = true →
      svn_ra_get_log_stub py_iter_log_entry_cb result reports s.mem s.iter =
        ((run exccls s (stub_script result reports).1).1.mem,
         (run exccls s (stub_script result reports).1).1.iter,
         (stub_script result reports).2) ∧
      (run exccls s (stub_script result reports).1).1.ra = s.ra := by
  induction reports with
  | nil => intro s cells _ _; exact ⟨rfl, rfl⟩
  | cons x rest ih =>
    intro s cells hq hf
    cases h1 : x.py_changed_paths with
    | none => simp [svn_ra_get_log_stub, py_iter_log_entry_cb, stub_script, h1, run]
    | some cp =>
      cases h2 : x.revprops with
      | none => simp [svn_ra_get_log_stub, py_iter_log_entry_cb, stub_script, h1, h2, run]
      | some rp =>
        cases h3 : x.tuple with
        | none =>
          simp [svn_ra_get_log_stub, py_iter_log_entry_cb, stub_script, h1, h2, h3, run]
        | some t =>
          cases h4 : x.entry with
          | none =>
            have hs : stub_script result (x :: rest) =
                ([Event.append none t], some x.py_svn_error) := by
              simp [stub_script, h1, h2, h3, h4]
            rw [hs]
            simp [svn_ra_get_log_stub, py_iter_log_entry_cb, h1, h2, h3, h4, py_iter_append,
              run, step]
          | some e =>
            have hs : stub_script result (x :: rest) =
                (Event.append (some e) t :: (stub_script result rest).1,
                  (stub_script result rest).2) := by
              simp [stub_script, h1, h2, h3, h4]
            rw [hs] at hf ⊢
            simp only [calloc_fresh, Bool.and_eq_true] at hf
            have hfe : s.mem e = none := by simpa using hf.1
            obtain ⟨a1, _⟩ := py_iter_append_shape s.mem s.iter cells e t hq hfe
            obtain ⟨_, b2, _, _, _, b6⟩ := step_append_some exccls s cells e t hq hfe
            obtain ⟨i1, i2⟩ := ih _ _ b2 hf.2
            have hstep : (step exccls s (Event.append (some e) t)).1 =
                { s with mem := (py_iter_append (some e) s.mem s.iter t).1,
                         iter := (py_iter_append (some e) s.mem s.iter t).2.1 } := by
              simp only [step]
            rcases hp : py_iter_append (some e) s.mem s.iter t with ⟨mem1, iter1, r⟩
            rw [hp] at a1 hstep
            have hr : r = AppendResult.none_returned := a1
            subst hr
            rw [hstep] at i1 i2
            refine ⟨?_, ?_⟩
            · simp only [svn_ra_get_log_stub, py_iter_log_entry_cb, h1, h2, h3, h4, hp,
                run_cons_fst, hstep]
              exact i1
            · simp only [run_cons_fst, hstep]
              exact i2

/-- The function `py_iter_log`, run against a stub of the native library on a
well-formed queue, does what the steps `stub_script` lists do, followed by the
step `finish`. -/
theorem py_iter_log_as_events (exccls : Option PyObject) (major minor : Nat)
    (native : native_call → native_run) (s : System) (cells : List (Nat × PyObject))
    (hq : queue_shape s.mem s.iter cells)
    (hf : calloc_fresh exccls s
      (stub_script (native (py_iter_log_call major minor s.ra s.iter)).result
        (native (py_iter_log_call major minor s.ra s.iter)).reports).1 = true) :
    py_iter_log major minor native s.ra s.mem s.iter =
      ((run exccls s
          ((stub_script (native (py_iter_log_call major minor s.ra s.iter)).result
              (native (py_iter_log_call major minor s.ra s.iter)).reports).1 ++
            [Event.finish
              (stub_script (native (py_iter_log_call major minor s.ra s.iter)).result
                (native (py_iter_log_call major minor s.ra s.iter)).reports).2])).1.ra,
       (run exccls s
          ((stub_script (native (py_iter_log_call major minor s.ra s.iter)).result
              (native (py_iter_log_call major minor s.ra s.iter)).reports).1 ++
            [Event.finish
              (stub_script (native (py_iter_log_call major minor s.ra s.iter)).result
                (native (py_iter_log_call major minor s.ra s.iter)).reports).2])).1.mem,
       (run exccls s
          ((stub_script (native (py_iter_log_call major minor s.ra s.iter)).result
              (native (py_iter_log_call major minor s.ra s.iter)).reports).1 ++
            [Event.finish
              (stub_script (native (py_iter_log_call major minor s.ra s.iter)).result
                (native (py_iter_log_call major minor s.ra s.iter)).reports).2])).1.iter) := by
  obtain ⟨h1, h2⟩ := stub_as_events exccls _ _ s cells hq hf
  have hrecv : (if modern_fetch major minor then py_iter_log_entry_cb else py_iter_log_cb) =
      py_iter_log_entry_cb := by
    split
    · rfl
    · exact receivers_agree
  simp only [py_iter_log, hrecv, h1, run_append_fst, run_cons_fst, run, step, h2]

end Subvertpy
